import Mathlib

set_option maxHeartbeats 1000000

/- Verification of the weekly routine tracker (src: routine_core.py, app.py,
   routine_tracker.py).

   Modelling conventions:
   * Python `int` is `Int`; Python floor division / modulus by the positive
     constants used here coincide with `Int.ediv` / `Int.emod`.
   * Python `float` is modelled by `ℚ`.  Every numeric value this program
     manipulates is an exact decimal (scores are table entries or values
     rounded to two decimal places), and on this domain binary floating point
     arithmetic agrees with exact rational arithmetic; the few places where a
     contrived input could make the two differ are noted at the definition.
   * Python `datetime.date` is a year/month/day triple of integers.
   * A raised exception is an `Except`/`Option` error value.
   * The CSV persistence file is its list of lines (line terminators are
     handled uniformly by Python's csv module and are abstracted away). -/

namespace Routine

/-- Python `datetime.date`: a proleptic-Gregorian year/month/day triple. -/
structure PyDate where
  year : Int
  month : Int
  day : Int
  deriving DecidableEq, Repr

/-- The Gregorian leap-year rule used by Python's `datetime`. -/
def isLeap (y : Int) : Bool :=
  decide ((y % 4 = 0 ∧ ¬y % 100 = 0) ∨ y % 400 = 0)

/-- Number of days in month `m` of year `y` (Python `datetime` rule). -/
def daysInMonth (y m : Int) : Int :=
  if m = 2 then (if isLeap y then 29 else 28)
  else if m = 4 ∨ m = 6 ∨ m = 9 ∨ m = 11 then 30
  else 31

/-- Validity of a `PyDate`; Python enforces exactly this at `date` construction
(`MINYEAR = 1`, `MAXYEAR = 9999`). -/
def isValidDate (d : PyDate) : Prop :=
  1 ≤ d.year ∧ d.year ≤ 9999 ∧ 1 ≤ d.month ∧ d.month ≤ 12 ∧
    1 ≤ d.day ∧ d.day ≤ daysInMonth d.year d.month

instance (d : PyDate) : Decidable (isValidDate d) := by
  unfold isValidDate; infer_instance

/-- Cumulative number of days strictly before month `m` (`L`: in a leap year). -/
def monthOffset (L : Bool) (m : Int) : Int :=
  (if m = 1 then 0 else if m = 2 then 31 else if m = 3 then 59 else if m = 4 then 90
   else if m = 5 then 120 else if m = 6 then 151 else if m = 7 then 181 else if m = 8 then 212
   else if m = 9 then 243 else if m = 10 then 273 else if m = 11 then 304 else 334)
  + (if 3 ≤ m ∧ L = true then 1 else 0)

/-- Number of leap years in `1..n`. -/
def leapsBefore (n : Int) : Int :=
  n / 4 - n / 100 + n / 400

/-- Python `date.toordinal()`: day number with `0001-01-01 ↦ 1`. -/
def toOrdinal (d : PyDate) : Int :=
  365 * (d.year - 1) + leapsBefore (d.year - 1) + monthOffset (isLeap d.year) d.month + d.day

/-- Python `date.weekday()`: Monday = 0, …, Sunday = 6. -/
def weekday (d : PyDate) : Int :=
  (toOrdinal d + 6) % 7

/-- The previous calendar day (`d - timedelta(days=1)`). -/
def predDate (d : PyDate) : PyDate :=
  if 2 ≤ d.day then ⟨d.year, d.month, d.day - 1⟩
  else if 2 ≤ d.month then ⟨d.year, d.month - 1, daysInMonth d.year (d.month - 1)⟩
  else ⟨d.year - 1, 12, 31⟩

/-- `d - timedelta(days=k)` for `k ≥ 0`. -/
def subDays (d : PyDate) : Nat → PyDate
  | 0 => d
  | k + 1 => subDays (predDate d) k

/-- `week_start_for_day` (routine_core.py line 62):
`day - timedelta(days=day.weekday())`. -/
def week_start_for_day (d : PyDate) : PyDate :=
  subDays d (weekday d).toNat

/-- The five category labels, in `CATEGORY_ORDER` order, which is also the key
set of `CATEGORY_WEIGHTS` (routine_core.py lines 16-22 and 41-47). -/
def CATEGORIES : List String :=
  ["생활리듬", "명상/일기쓰기", "공부시간", "운동", "핵심키워드"]

/-- The `CATEGORY_WEIGHTS` dict (routine_core.py lines 16-22); `none` models a
`KeyError`. -/
def CATEGORY_WEIGHTS (c : String) : Option Int :=
  if c = "생활리듬" then some 30
  else if c = "명상/일기쓰기" then some 15
  else if c = "공부시간" then some 30
  else if c = "운동" then some 10
  else if c = "핵심키워드" then some 15
  else none

/-- Lookup in an integer-keyed dict; `none` models a `KeyError`. -/
def tableLookup : List (Int × ℚ) → Int → Option ℚ
  | [], _ => none
  | (k, v) :: rest, q => if k = q then some v else tableLookup rest q

/-- The `SCORE_TABLES` dict (routine_core.py lines 24-29). -/
def SCORE_TABLES (c : String) : Option (List (Int × ℚ)) :=
  if c = "생활리듬" then
    some [(7, 30), (6, 27), (5, 25), (4, 15), (3, 10), (2, 5), (1, 3), (0, 0)]
  else if c = "명상/일기쓰기" then
    some [(7, 15), (6, 14), (5, 13), (4, 10), (3, 8), (2, 6), (1, 3), (0, 0)]
  else if c = "운동" then
    some [(7, 10), (6, 19 / 2), (5, 9), (4, 8), (3, 7), (2, 4), (1, 2), (0, 0)]
  else if c = "핵심키워드" then
    some [(7, 15), (6, 14), (5, 12), (4, 10), (3, 8), (2, 4), (1, 2), (0, 0)]
  else none

/-- Exact round-half-to-even at `p` decimal digits, as an integer scaled by
`10 ^ p`.  This models the rounding of Python's `round(x, p)` and of a
`.1f`-format: on the values this program rounds (`days/84*30` with integer
`days`, whose exact value is never closer than `1/2800` to a half-way point)
the binary floating-point result rounds to the same decimal. -/
def roundHalfEvenScaled (p : Nat) (q : ℚ) : Int :=
  let s : ℚ := q * 10 ^ p
  let n : Int := s.num / (s.den : Int)
  let r : ℚ := s - (n : ℚ)
  if r < 1 / 2 then n
  else if 1 / 2 < r then n + 1
  else if n % 2 = 0 then n else n + 1

/-- Python `round(q, 2)` on exact decimal values. -/
def pyRound2 (q : ℚ) : ℚ := (roundHalfEvenScaled 2 q : ℚ) / 100

/-- `calculate_score` (routine_core.py lines 74-78).  `none` models an uncaught
`KeyError` from one of the dict lookups; no range validation happens here. -/
def calculate_score (category : String) (days : Int) : Option ℚ :=
  if category = "공부시간" then
    match CATEGORY_WEIGHTS category with
    | some weight => some (pyRound2 ((days : ℚ) / 84 * (weight : ℚ)))
    | none => none
  else
    match SCORE_TABLES category with
    | some table => tableLookup table days
    | none => none

/-- `validate_days` (routine_core.py lines 81-89); `.error` models a raised
`ValueError` with the given message. -/
def validate_days (category : String) (days : Int) : Except String Unit :=
  if days < 0 then .error "일수는 0 이상이어야 합니다."
  else if category = "공부시간" then
    (if 84 < days then .error "공부시간은 0부터 84 사이여야 합니다." else .ok ())
  else if 7 < days then .error "일수는 0부터 7 사이여야 합니다."
  else .ok ()

deriving instance DecidableEq for Except

/-- The kinds of Python exception the modelled code can raise. -/
inductive PyErr where
  | valueError : String → PyErr
  | keyError : String → PyErr
  | typeError : PyErr
  | attributeError : PyErr
  deriving DecidableEq, Repr

/-- The `RoutineEntry` dataclass (routine_core.py lines 50-55). -/
structure RoutineEntry where
  week_start : PyDate
  category : String
  days : Int
  score : ℚ
  deriving DecidableEq, Repr

/-- `build_entry` (routine_core.py lines 104-107): `validate_days` runs first,
then `calculate_score`; a validation error is surfaced before any lookup and
before any entry is produced (hence before any write). -/
def build_entry (week_start : PyDate) (category : String) (days : Int) :
    Except PyErr RoutineEntry :=
  match validate_days category days with
  | .error msg => .error (.valueError msg)
  | .ok _ =>
    match calculate_score category days with
    | some score => .ok ⟨week_start, category, days, score⟩
    | none => .error (.keyError category)

/-- The `GRADE_THRESHOLDS` list (routine_core.py lines 31-39). -/
def GRADE_THRESHOLDS : List (Int × String) :=
  [(95, "SS등급(상위 0.1%)"), (90, "S등급(상위 1%)"), (85, "A등급(상위 5%)"),
   (75, "B등급(상위 10%)"), (65, "C등급(상위 20%)"), (55, "D등급(상위 30%)"),
   (0, "주의등급")]

/-- The threshold loop of `grade_for_score` (routine_core.py lines 93-95). -/
def gradeScan : List (Int × String) → ℚ → String
  | [], _ => "주의등급"
  | (threshold, label) :: rest, score =>
    if (threshold : ℚ) ≤ score then label else gradeScan rest score

/-- `grade_for_score` (routine_core.py lines 92-96). -/
def grade_for_score (score : ℚ) : String := gradeScan GRADE_THRESHOLDS score

/-- Evaluation lemma: when the scaled value is an exact integer, half-even
rounding returns it unchanged. -/
theorem roundHalfEvenScaled_intCast (p : Nat) (q : ℚ) (m : Int)
    (h : q * 10 ^ p = (m : ℚ)) : roundHalfEvenScaled p q = m := by
  simp only [roundHalfEvenScaled, h, Rat.num_intCast, Rat.den_intCast, Nat.cast_one]
  rw [Int.ediv_one, sub_self]
  norm_num

/-- C1: for every valid `(category, count)` pair, `calculate_score` returns
`round((count / 84) * 30, 2)` for the hour-counted category 공부시간 (in fact
for every integer `count`, the formula branch performs no range check), and for
each of the four day-counted categories it returns exactly the fixed score
table's value at the integer count (the lookup is total on `0..7` and does not
interpolate); in particular `compute("공부시간", 42) = 15.0`,
`compute("공부시간", 84) = 30.0`, `compute("공부시간", 0) = 0.0`,
`compute("생활리듬", 7) = 30` and `compute("생활리듬", 0) = 0`. -/
theorem claim_c1 :
    (∀ days : Int, calculate_score "공부시간" days
        = some (pyRound2 ((days : ℚ) / 84 * 30)))
    ∧ (∀ c ∈ ["생활리듬", "명상/일기쓰기", "운동", "핵심키워드"],
        ∀ days : Int, 0 ≤ days → days ≤ 7 → (calculate_score c days).isSome = true)
    ∧ (∀ c, ¬c = "공부시간" →
        ∀ days : Int, calculate_score c days
          = (SCORE_TABLES c).bind (fun t => tableLookup t days))
    ∧ calculate_score "공부시간" 42 = some 15
    ∧ calculate_score "공부시간" 84 = some 30
    ∧ calculate_score "공부시간" 0 = some 0
    ∧ calculate_score "생활리듬" 7 = some 30
    ∧ calculate_score "생활리듬" 0 = some 0 := by
  have hour : ∀ days : Int, calculate_score "공부시간" days
      = some (pyRound2 ((days : ℚ) / 84 * 30)) := by
    intro days
    simp [calculate_score, CATEGORY_WEIGHTS]
  have r42 : pyRound2 (((42 : Int) : ℚ) / 84 * 30) = 15 := by
    rw [pyRound2, roundHalfEvenScaled_intCast 2 _ 1500 (by norm_num)]
    norm_num
  have r84 : pyRound2 (((84 : Int) : ℚ) / 84 * 30) = 30 := by
    rw [pyRound2, roundHalfEvenScaled_intCast 2 _ 3000 (by norm_num)]
    norm_num
  have r0 : pyRound2 (((0 : Int) : ℚ) / 84 * 30) = 0 := by
    rw [pyRound2, roundHalfEvenScaled_intCast 2 _ 0 (by norm_num)]
    norm_num
  refine ⟨hour, ?_, ?_, ?_, ?_, ?_, by decide, by decide⟩
  · intro c hc days h0 h7
    have h : days = 0 ∨ days = 1 ∨ days = 2 ∨ days = 3 ∨ days = 4 ∨ days = 5 ∨
        days = 6 ∨ days = 7 := by omega
    fin_cases hc <;>
      rcases h with rfl | rfl | rfl | rfl | rfl | rfl | rfl | rfl <;> decide
  · intro c hc days
    simp only [calculate_score, if_neg hc]
    cases SCORE_TABLES c <;> rfl
  · rw [hour 42, r42]
  · rw [hour 84, r84]
  · rw [hour 0, r0]

/-- Witness for C1 at concrete inputs. -/
theorem claim_c1_witness :
    (calculate_score "생활리듬" 3).isSome = true
      ∧ calculate_score "명상/일기쓰기" 5 = (SCORE_TABLES "명상/일기쓰기").bind
          (fun t => tableLookup t 5) :=
  ⟨claim_c1.2.1 "생활리듬" (by decide) 3 (by decide) (by decide),
   claim_c1.2.2.1 "명상/일기쓰기" (by decide) 5⟩

/-- C2: `grade_for_score` returns the label of the first threshold, checked in
descending order (`95 → SS`, `90 → S`, `85 → A`, `75 → B`, `65 → C`,
`55 → D`), whose value the score reaches (`≥`, so boundary ties take the
higher grade), and the caution grade 주의등급 otherwise; in particular
`gradeFor(95.0) = SS`, `gradeFor(94.99) = S`, `gradeFor(55.0) = D` and
`gradeFor(54.99)` is the caution grade. -/
theorem claim_c2 :
    (∀ s : ℚ, grade_for_score s =
      (if 95 ≤ s then "SS등급(상위 0.1%)"
       else if 90 ≤ s then "S등급(상위 1%)"
       else if 85 ≤ s then "A등급(상위 5%)"
       else if 75 ≤ s then "B등급(상위 10%)"
       else if 65 ≤ s then "C등급(상위 20%)"
       else if 55 ≤ s then "D등급(상위 30%)"
       else "주의등급"))
    ∧ grade_for_score 95 = "SS등급(상위 0.1%)"
    ∧ grade_for_score (9499 / 100) = "S등급(상위 1%)"
    ∧ grade_for_score 55 = "D등급(상위 30%)"
    ∧ grade_for_score (5499 / 100) = "주의등급" := by
  have hgen : ∀ s : ℚ, grade_for_score s =
      (if 95 ≤ s then "SS등급(상위 0.1%)"
       else if 90 ≤ s then "S등급(상위 1%)"
       else if 85 ≤ s then "A등급(상위 5%)"
       else if 75 ≤ s then "B등급(상위 10%)"
       else if 65 ≤ s then "C등급(상위 20%)"
       else if 55 ≤ s then "D등급(상위 30%)"
       else "주의등급") := by
    intro s
    simp only [grade_for_score, GRADE_THRESHOLDS, gradeScan]
    norm_num
  refine ⟨hgen, ?_, ?_, ?_, ?_⟩ <;> rw [hgen] <;> norm_num

/-- C3: for every count outside its category's valid range (`[0,7]` for the
day-counted categories, `[0,84]` for 공부시간), the checked computation path
(`build_entry` = `validate_days` then `calculate_score`) fails with the
`ValueError` raised by the explicit range check of `validate_days` — not with
a `KeyError` from table absence — and produces no entry (so nothing is ever
written, and the count is never clamped). -/
theorem claim_c3 :
    ∀ c ∈ CATEGORIES, ∀ (w : PyDate) (days : Int),
      (days < 0 ∨ (if c = "공부시간" then (84 : Int) else 7) < days) →
      ∃ msg, validate_days c days = .error msg
        ∧ build_entry w c days = .error (.valueError msg) := by
  intro c _ w days hd
  by_cases hc : c = "공부시간"
  · subst hc
    simp at hd
    rcases hd with hlt | hgt
    · exact ⟨"일수는 0 이상이어야 합니다.",
        by simp [validate_days, hlt], by simp [build_entry, validate_days, hlt]⟩
    · have hnneg : ¬days < 0 := by omega
      exact ⟨"공부시간은 0부터 84 사이여야 합니다.",
        by simp [validate_days, hnneg, hgt], by simp [build_entry, validate_days, hnneg, hgt]⟩
  · simp only [if_neg hc] at hd
    rcases hd with hlt | hgt
    · exact ⟨"일수는 0 이상이어야 합니다.",
        by simp [validate_days, hlt], by simp [build_entry, validate_days, hlt]⟩
    · have hnneg : ¬days < 0 := by omega
      exact ⟨"일수는 0부터 7 사이여야 합니다.",
        by simp [validate_days, hnneg, hgt, hc], by simp [build_entry, validate_days, hnneg, hgt, hc]⟩

/-- Witness for C3: 생활리듬 with count 9 (out of range) fails validation. -/
theorem claim_c3_witness :
    ∃ msg, validate_days "생활리듬" 9 = .error msg
      ∧ build_entry ⟨2024, 1, 1⟩ "생활리듬" 9 = .error (.valueError msg) :=
  claim_c3 "생활리듬" (by decide) ⟨2024, 1, 1⟩ 9 (by decide)

/-- The store-level content of `upsert_week_entries` (routine_core.py lines
149-152): load the collection, drop every entry whose `week_start` equals the
argument (compared as given — no normalization happens here), append the new
entries, save.  The persisted collection is modelled as the loaded entry list;
that the CSV layer faithfully round-trips loaded collections is proved
separately for C7. -/
def upsert_week_entries (store : List RoutineEntry) (week : PyDate)
    (entries : List RoutineEntry) : List RoutineEntry :=
  (store.filter fun e => decide (¬e.week_start = week)) ++ entries

/-- `delete_week_entries` (routine_core.py lines 155-158). -/
def delete_week_entries (store : List RoutineEntry) (week : PyDate) :
    List RoutineEntry :=
  store.filter fun e => decide (¬e.week_start = week)

/-- Entries of week `w` currently held in a store. -/
def weekEntries (store : List RoutineEntry) (w : PyDate) : List RoutineEntry :=
  store.filter fun e => decide (e.week_start = w)

theorem weekEntries_all {l : List RoutineEntry} {w : PyDate}
    (h : ∀ e ∈ l, e.week_start = w) : weekEntries l w = l := by
  rw [weekEntries, List.filter_eq_self]
  intro a ha
  simpa using h a ha

theorem weekEntries_none {l : List RoutineEntry} {w w' : PyDate}
    (h : ∀ e ∈ l, e.week_start = w) (hne : ¬w' = w) : weekEntries l w' = [] := by
  rw [weekEntries, List.filter_eq_nil_iff]
  intro a ha
  simp only [decide_eq_true_eq]
  rw [h a ha]
  exact fun hcon => hne hcon.symm

theorem weekEntries_dropWeek (s : List RoutineEntry) (w : PyDate) :
    weekEntries (s.filter fun e => decide (¬e.week_start = w)) w = [] := by
  rw [weekEntries, List.filter_eq_nil_iff]
  intro a ha
  simp only [List.mem_filter, decide_eq_true_eq] at ha ⊢
  exact ha.2

theorem weekEntries_dropWeek_other (s : List RoutineEntry) (w w' : PyDate)
    (hne : ¬w' = w) :
    weekEntries (s.filter fun e => decide (¬e.week_start = w)) w'
      = weekEntries s w' := by
  rw [weekEntries, weekEntries, List.filter_filter]
  apply List.filter_congr
  intro a _
  by_cases h : a.week_start = w'
  · simp [h, hne]
  · simp [h]

/-- C4: `upsert_week_entries` removes every stored entry of the given week and
appends the new ones, leaving all other weeks unchanged: after an upsert of
week `w` with entries of week `w`, the store holds exactly those entries for
`w` and its previous contents for every other week; consequently upserting
week A, then week B, then week A again (starting from an empty store) leaves
exactly the last write's entries for A plus the entries for B, with no
duplicate rows for A. -/
theorem claim_c4 :
    (∀ (s ns : List RoutineEntry) (w : PyDate), (∀ e ∈ ns, e.week_start = w) →
      weekEntries (upsert_week_entries s w ns) w = ns)
    ∧ (∀ (s ns : List RoutineEntry) (w w' : PyDate),
        (∀ e ∈ ns, e.week_start = w) → ¬w' = w →
        weekEntries (upsert_week_entries s w ns) w' = weekEntries s w')
    ∧ (∀ (as1 bs as2 : List RoutineEntry) (A B : PyDate), ¬A = B →
        (∀ e ∈ as1, e.week_start = A) → (∀ e ∈ bs, e.week_start = B) →
        (∀ e ∈ as2, e.week_start = A) →
        upsert_week_entries (upsert_week_entries
            (upsert_week_entries [] A as1) B bs) A as2 = bs ++ as2) := by
  refine ⟨?_, ?_, ?_⟩
  · intro s ns w h
    rw [upsert_week_entries, weekEntries, List.filter_append]
    rw [show (List.filter (fun e => decide (e.week_start = w))
        (s.filter fun e => decide (¬e.week_start = w))) = [] from
      weekEntries_dropWeek s w]
    rw [List.nil_append]
    exact weekEntries_all h
  · intro s ns w w' h hne
    rw [upsert_week_entries, weekEntries, List.filter_append]
    rw [show (List.filter (fun e => decide (e.week_start = w')) ns) = [] from
      weekEntries_none h hne]
    rw [List.append_nil]
    exact weekEntries_dropWeek_other s w w' hne
  · intro as1 bs as2 A B hAB h1 h2 h3
    have e1 : (as1.filter fun e => decide (¬e.week_start = B)) = as1 := by
      rw [List.filter_eq_self]
      intro a ha
      simp [h1 a ha, hAB]
    have e2 : (as1.filter fun e => decide (¬e.week_start = A)) = [] := by
      rw [List.filter_eq_nil_iff]
      intro a ha
      simp [h1 a ha]
    have e3 : (bs.filter fun e => decide (¬e.week_start = A)) = bs := by
      have hBA : ¬B = A := fun hcon => hAB hcon.symm
      rw [List.filter_eq_self]
      intro a ha
      simp [h2 a ha, hBA]
    simp only [upsert_week_entries, List.filter_nil, List.nil_append,
      List.filter_append, e1, e2, e3]

/-- Witness for C4 at a concrete store. -/
theorem claim_c4_witness :
    upsert_week_entries (upsert_week_entries (upsert_week_entries []
        ⟨2024, 1, 1⟩ [⟨⟨2024, 1, 1⟩, "운동", 3, 7⟩])
        ⟨2024, 1, 8⟩ [⟨⟨2024, 1, 8⟩, "운동", 5, 9⟩])
        ⟨2024, 1, 1⟩ [⟨⟨2024, 1, 1⟩, "운동", 7, 10⟩]
      = [⟨⟨2024, 1, 8⟩, "운동", 5, 9⟩, ⟨⟨2024, 1, 1⟩, "운동", 7, 10⟩] :=
  claim_c4.2.2 [⟨⟨2024, 1, 1⟩, "운동", 3, 7⟩] [⟨⟨2024, 1, 8⟩, "운동", 5, 9⟩]
    [⟨⟨2024, 1, 1⟩, "운동", 7, 10⟩] ⟨2024, 1, 1⟩ ⟨2024, 1, 8⟩ (by decide)
    (by intro e he; simp at he; rw [he]) (by intro e he; simp at he; rw [he])
    (by intro e he; simp at he; rw [he])

theorem monthOffset_nonneg (L : Bool) (m : Int) : 0 ≤ monthOffset L m := by
  unfold monthOffset
  split_ifs <;> omega

theorem leapsBefore_nonneg (n : Int) (h : 0 ≤ n) : 0 ≤ leapsBefore n := by
  unfold leapsBefore
  omega

theorem daysInMonth_pos (y m : Int) : 1 ≤ daysInMonth y m := by
  unfold daysInMonth
  split_ifs <;> omega

theorem toOrdinal_pos {d : PyDate} (h : isValidDate d) : 1 ≤ toOrdinal d := by
  obtain ⟨hy1, hy2, hm1, hm2, hd1, hd2⟩ := h
  have h1 := monthOffset_nonneg (isLeap d.year) d.month
  have h2 := leapsBefore_nonneg (d.year - 1) (by omega)
  unfold toOrdinal
  omega

theorem leapsBefore_sub (n : Int) :
    leapsBefore n - leapsBefore (n - 1) = if isLeap n then 1 else 0 := by
  have s4 : n / 4 - (n - 1) / 4 = if n % 4 = 0 then 1 else 0 := by
    split <;> omega
  have s100 : n / 100 - (n - 1) / 100 = if n % 100 = 0 then 1 else 0 := by
    split <;> omega
  have s400 : n / 400 - (n - 1) / 400 = if n % 400 = 0 then 1 else 0 := by
    split <;> omega
  by_cases hP : (n % 4 = 0 ∧ ¬n % 100 = 0) ∨ n % 400 = 0
  · simp only [leapsBefore, isLeap, decide_eq_true_eq, hP, if_true, reduceIte]
    rcases hP with ⟨h4, h100⟩ | h400
    · have h400 : ¬n % 400 = 0 := by omega
      rw [if_pos h4] at s4
      rw [if_neg h100] at s100
      rw [if_neg h400] at s400
      omega
    · have h4 : n % 4 = 0 := by omega
      have h100 : n % 100 = 0 := by omega
      rw [if_pos h4] at s4
      rw [if_pos h100] at s100
      rw [if_pos h400] at s400
      omega
  · simp only [leapsBefore, isLeap, decide_eq_true_eq, hP, if_false, reduceIte]
    push_neg at hP
    obtain ⟨h1, h400⟩ := hP
    rw [if_neg h400] at s400
    by_cases h4 : n % 4 = 0
    · have h100 : n % 100 = 0 := h1 h4
      rw [if_pos h4] at s4
      rw [if_pos h100] at s100
      omega
    · rw [if_neg h4] at s4
      by_cases h100 : n % 100 = 0
      · rw [if_pos h100] at s100
        omega
      · rw [if_neg h100] at s100
        omega

theorem monthOffset_step (y m : Int) (h2 : 2 ≤ m) (h12 : m ≤ 12) :
    monthOffset (isLeap y) m
      = monthOffset (isLeap y) (m - 1) + daysInMonth y (m - 1) := by
  interval_cases m <;> cases hL : isLeap y <;>
    norm_num [monthOffset, daysInMonth, hL]

theorem toOrdinal_predDate {d : PyDate} (hv : isValidDate d)
    (h2 : 2 ≤ toOrdinal d) :
    toOrdinal (predDate d) = toOrdinal d - 1 ∧ isValidDate (predDate d) := by
  obtain ⟨hy1, hy2, hm1, hm2, hd1, hd2⟩ := hv
  unfold predDate
  by_cases hd : 2 ≤ d.day
  · rw [if_pos hd]
    constructor
    · unfold toOrdinal
      dsimp only
      omega
    · unfold isValidDate
      dsimp only
      omega
  · by_cases hm : 2 ≤ d.month
    · rw [if_neg hd, if_pos hm]
      have hstep := monthOffset_step d.year d.month hm hm2
      constructor
      · unfold toOrdinal
        dsimp only
        omega
      · have hpos := daysInMonth_pos d.year (d.month - 1)
        unfold isValidDate
        dsimp only
        omega
    · rw [if_neg hd, if_neg hm]
      have hmm : d.month = 1 := by omega
      have hdd : d.day = 1 := by omega
      have hyy : 2 ≤ d.year := by
        by_contra hcon
        have hy1' : d.year = 1 := by omega
        have hone : toOrdinal d = 1 := by
          unfold toOrdinal
          rw [hy1', hmm, hdd]
          norm_num [leapsBefore, monthOffset]
        omega
      have h12off : ∀ L, monthOffset L 12 = 334 + (if L = true then 1 else 0) := by
        intro L
        cases L <;> norm_num [monthOffset]
      have h1off : ∀ L, monthOffset L 1 = 0 := by
        intro L
        cases L <;> norm_num [monthOffset]
      have hl := leapsBefore_sub (d.year - 1)
      constructor
      · unfold toOrdinal
        dsimp only
        rw [hmm, hdd, h12off, h1off]
        by_cases hL : isLeap (d.year - 1) = true <;> simp only [hL, if_true,
          if_false, Bool.not_eq_true, reduceIte] at hl ⊢ <;> omega
      · unfold isValidDate
        dsimp only
        norm_num [daysInMonth]
        omega

theorem toOrdinal_subDays :
    ∀ (k : Nat) (d : PyDate), isValidDate d → (k : Int) ≤ toOrdinal d - 1 →
      toOrdinal (subDays d k) = toOrdinal d - k ∧ isValidDate (subDays d k) := by
  intro k
  induction k with
  | zero =>
    intro d hv _
    exact ⟨by simp [subDays], hv⟩
  | succ n ih =>
    intro d hv hk
    have h2 : 2 ≤ toOrdinal d := by push_cast at hk; omega
    obtain ⟨hpred, hpredv⟩ := toOrdinal_predDate hv h2
    have hk2 : (n : Int) ≤ toOrdinal (predDate d) - 1 := by
      rw [hpred]; push_cast at hk ⊢; omega
    obtain ⟨ha, hb⟩ := ih (predDate d) hpredv hk2
    refine ⟨?_, hb⟩
    rw [show subDays d (n + 1) = subDays (predDate d) n from rfl, ha, hpred]
    push_cast
    ring

/-- C5 (amended): `week_start_for_day` does normalize — it subtracts the
weekday offset and always lands on a Monday (a valid date with weekday 0) —
but `upsert_week_entries`/`delete_week_entries` compare stored entries against
their `week_start` argument exactly as given, with no normalization, so a
Monday `week_start` for stored entries depends on the caller normalizing. -/
theorem claim_c5_amended :
    ∀ d : PyDate, isValidDate d →
      toOrdinal (week_start_for_day d) = toOrdinal d - weekday d
      ∧ weekday (week_start_for_day d) = 0
      ∧ isValidDate (week_start_for_day d)
      ∧ (∀ (s ns : List RoutineEntry),
          upsert_week_entries s d ns
            = (s.filter fun e => decide (¬e.week_start = d)) ++ ns
          ∧ delete_week_entries s d
            = s.filter fun e => decide (¬e.week_start = d)) := by
  intro d hv
  have ht := toOrdinal_pos hv
  have hw0 : 0 ≤ weekday d := by unfold weekday; omega
  have hle : (((weekday d).toNat : Nat) : Int) ≤ toOrdinal d - 1 := by
    unfold weekday at hw0 ⊢
    omega
  obtain ⟨ha, hb⟩ := toOrdinal_subDays (weekday d).toNat d hv hle
  have hord : toOrdinal (week_start_for_day d) = toOrdinal d - weekday d := by
    rw [show week_start_for_day d = subDays d (weekday d).toNat from rfl, ha]
    omega
  refine ⟨hord, ?_, hb, fun s ns => ⟨rfl, rfl⟩⟩
  unfold weekday at hord ⊢
  omega

/-- Witness for the amended C5 at the (valid) date 2024-10-12. -/
theorem claim_c5_amended_witness :
    toOrdinal (week_start_for_day ⟨2024, 10, 12⟩)
        = toOrdinal ⟨2024, 10, 12⟩ - weekday ⟨2024, 10, 12⟩
      ∧ weekday (week_start_for_day ⟨2024, 10, 12⟩) = 0
      ∧ isValidDate (week_start_for_day ⟨2024, 10, 12⟩)
      ∧ (∀ (s ns : List RoutineEntry),
          upsert_week_entries s ⟨2024, 10, 12⟩ ns
            = (s.filter fun e => decide (¬e.week_start = ⟨2024, 10, 12⟩)) ++ ns
          ∧ delete_week_entries s ⟨2024, 10, 12⟩
            = s.filter fun e => decide (¬e.week_start = ⟨2024, 10, 12⟩)) :=
  claim_c5_amended ⟨2024, 10, 12⟩ (by decide)

/-- C5 counterexample: the mutation operations do not normalize their week
argument.  Calling `upsert_week_entries` with Tuesday 2024-01-02 does not
touch the entries of that date's Monday (so its behaviour differs from the
normalized call), and it can store an entry whose `week_start` is not a
Monday. -/
theorem claim_c5_counterexample :
    upsert_week_entries [⟨⟨2024, 1, 1⟩, "운동", 7, 10⟩] ⟨2024, 1, 2⟩ []
        ≠ upsert_week_entries [⟨⟨2024, 1, 1⟩, "운동", 7, 10⟩]
            (week_start_for_day ⟨2024, 1, 2⟩) []
      ∧ upsert_week_entries [] ⟨2024, 1, 2⟩ [⟨⟨2024, 1, 2⟩, "운동", 7, 10⟩]
          = [⟨⟨2024, 1, 2⟩, "운동", 7, 10⟩]
      ∧ ¬weekday ⟨2024, 1, 2⟩ = 0 := by
  decide

/-! ### Strings, numbers and dates as text

The CSV layer works on `List Char` field contents; a file is its list of
lines. -/

/-- ASCII digit test. -/
def isDigitChar (c : Char) : Bool := decide (48 ≤ c.toNat ∧ c.toNat ≤ 57)

/-- The character of a single digit. -/
def digitChar (n : Nat) : Char := Char.ofNat (48 + n)

/-- Numeric value of a digit character. -/
def digitVal (c : Char) : Nat := c.toNat - 48

/-- Decimal digits, fuel-based so that the kernel can evaluate it (`fuel ≥ n`
always suffices). -/
def natDigitsAux : Nat → Nat → List Char
  | 0, n => [digitChar n]
  | fuel + 1, n =>
    if n < 10 then [digitChar n]
    else natDigitsAux fuel (n / 10) ++ [digitChar (n % 10)]

/-- Decimal digits of `n`, most significant first (as printed by Python's
`str`). -/
def natDigits (n : Nat) : List Char := natDigitsAux n n

theorem natDigitsAux_irrel :
    ∀ (f1 : Nat), ∀ (n f2 : Nat), n ≤ f1 → n ≤ f2 →
      natDigitsAux f1 n = natDigitsAux f2 n := by
  intro f1
  induction f1 with
  | zero =>
    intro n f2 h1 _
    have hn : n = 0 := by omega
    subst hn
    cases f2 <;> simp [natDigitsAux]
  | succ f ih =>
    intro n f2 h1 h2
    cases f2 with
    | zero =>
      have hn : n = 0 := by omega
      subst hn
      simp [natDigitsAux]
    | succ g =>
      show natDigitsAux (f + 1) n = natDigitsAux (g + 1) n
      rw [natDigitsAux, natDigitsAux]
      by_cases hlt : n < 10
      · rw [if_pos hlt, if_pos hlt]
      · rw [if_neg hlt, if_neg hlt]
        have hd : n / 10 ≤ f := by omega
        have hd2 : n / 10 ≤ g := by omega
        rw [ih (n / 10) g hd hd2]

/-- The recursion equation of `natDigits`. -/
theorem natDigits_def (n : Nat) :
    natDigits n = if n < 10 then [digitChar n]
      else natDigits (n / 10) ++ [digitChar (n % 10)] := by
  cases n with
  | zero => simp [natDigits, natDigitsAux]
  | succ m =>
    show natDigitsAux (m + 1) (m + 1) = _
    rw [natDigitsAux]
    by_cases hlt : m + 1 < 10
    · rw [if_pos hlt, if_pos hlt]
    · rw [if_neg hlt, if_neg hlt]
      have : (m + 1) / 10 ≤ m := by omega
      rw [natDigitsAux_irrel m ((m + 1) / 10) ((m + 1) / 10) this le_rfl]
      rfl

/-- Value of a digit string (no sign). -/
def valOfDigits (l : List Char) : Nat :=
  l.foldl (fun a c => 10 * a + digitVal c) 0

/-- Left-pad with zeros to width `w` (Python `%02d`-style formatting). -/
def padZeros (w : Nat) (l : List Char) : List Char :=
  List.replicate (w - l.length) '0' ++ l

/-- Python whitespace as stripped by `str.strip()` / tolerated by `int()` and
`float()`. -/
def isPySpace (c : Char) : Bool :=
  decide (c = ' ' ∨ c = '\t' ∨ c = '\n' ∨ c = '\r' ∨ c = '\x0b' ∨ c = '\x0c')

/-- Python `str.strip()`. -/
def stripChars (l : List Char) : List Char :=
  ((l.dropWhile isPySpace).reverse.dropWhile isPySpace).reverse

/-- Split a character list at every occurrence of `sep` (the field splitting
performed by Python's csv reader on the unquoted rows this program reads and
writes — no field of this data model ever contains a quote or comma). -/
def splitOnChar (sep : Char) : List Char → List (List Char)
  | [] => [[]]
  | c :: rest =>
    if c = sep then [] :: splitOnChar sep rest
    else
      match splitOnChar sep rest with
      | [] => [[c]]
      | g :: gs => (c :: g) :: gs

/-- Digit-string parse (helper for `int()`/`float()`). -/
def parseDigits (l : List Char) : Option Nat :=
  if ¬l = [] ∧ l.all isDigitChar then some (valOfDigits l) else none

/-- Python `int(s)`: surrounding whitespace is tolerated, then an optional
sign and a nonempty digit string.  (Underscore digit grouping, a rarely used
Python extension, is not modelled.) -/
def parseInt (l : List Char) : Option Int :=
  match stripChars l with
  | [] => none
  | c :: rest =>
    if c = '-' then (parseDigits rest).map fun n => -(n : Int)
    else if c = '+' then (parseDigits rest).map fun n => (n : Int)
    else (parseDigits (c :: rest)).map fun n => (n : Int)

/-- Split at the first exponent marker of a float literal. -/
def breakOnExp : List Char → List Char × Option (List Char)
  | [] => ([], none)
  | c :: rest =>
    if c = 'e' ∨ c = 'E' then ([], some rest)
    else
      match breakOnExp rest with
      | (m, e) => (c :: m, e)

/-- Mantissa of a float literal: digits with at most one decimal point, at
least one digit overall. -/
def parseMantissa (l : List Char) : Option ℚ :=
  match splitOnChar '.' l with
  | [a] =>
    if ¬a = [] ∧ a.all isDigitChar then some ((valOfDigits a : ℚ)) else none
  | [a, b] =>
    if ¬(a = [] ∧ b = []) ∧ a.all isDigitChar ∧ b.all isDigitChar then
      some ((valOfDigits a : ℚ) + (valOfDigits b : ℚ) / 10 ^ b.length)
    else none
  | _ => none

/-- Signed exponent of a float literal. -/
def parseExp (l : List Char) : Option Int :=
  match l with
  | [] => none
  | c :: rest =>
    if c = '-' then (parseDigits rest).map fun n => -(n : Int)
    else if c = '+' then (parseDigits rest).map fun n => (n : Int)
    else (parseDigits (c :: rest)).map fun n => (n : Int)

/-- Unsigned body of Python `float(s)`. -/
def parseFloatUnsigned (l : List Char) : Option ℚ :=
  match breakOnExp l with
  | (m, none) => parseMantissa m
  | (m, some e) =>
    match parseMantissa m, parseExp e with
    | some mq, some ex => some (mq * 10 ^ ex)
    | _, _ => none

/-- Python `float(s)` on finite decimal literals, modelled exactly over `ℚ`.
(`inf`/`nan` literals are not modelled — a score of those values is outside
the data model; binary-float parse error is impossible for finite decimals.) -/
def parseFloat (l : List Char) : Option ℚ :=
  match stripChars l with
  | [] => none
  | c :: rest =>
    if c = '-' then (parseFloatUnsigned rest).map fun q => -q
    else if c = '+' then parseFloatUnsigned rest
    else parseFloatUnsigned (c :: rest)

/-- Python `str(int)`. -/
def printInt (z : Int) : List Char :=
  if z < 0 then '-' :: natDigits z.natAbs else natDigits z.natAbs

/-- Least `k ≤ den` with `den ∣ 10 ^ k` (`den` itself works whenever any
power does). -/
def pow10Exp (den : Nat) : Nat :=
  (((List.range (den + 1)).find? fun k => decide (den ∣ 10 ^ k)).getD 0)

/-- `str(float)` for a nonnegative exact decimal: Python prints the shortest
decimal digit string, always keeping at least one fractional digit. -/
def printFloatPos (q : ℚ) : List Char :=
  let k := pow10Exp q.den
  let scaled := q.num.natAbs * 10 ^ k / q.den
  if k = 0 then natDigits scaled ++ ['.', '0']
  else natDigits (scaled / 10 ^ k) ++ '.' :: padZeros k (natDigits (scaled % 10 ^ k))

/-- Python `str(float)` on exact decimals (the only float values this program
writes; `-0.0` has no separate representation in `ℚ`). -/
def printFloat (q : ℚ) : List Char :=
  if q < 0 then '-' :: printFloatPos (-q) else printFloatPos q

/-- `parse_date` (routine_core.py lines 58-59): `strptime(value, "%Y-%m-%d")`.
The `%Y` pattern is exactly four digits, `%m`/`%d` are one or two digits, and
the assembled date must be a constructible `date` (`none` models the raised
`ValueError`). -/
def parseDateChars (l : List Char) : Option PyDate :=
  match splitOnChar '-' l with
  | [ys, ms, ds] =>
    if ys.length = 4 ∧ ys.all isDigitChar
        ∧ 1 ≤ ms.length ∧ ms.length ≤ 2 ∧ ms.all isDigitChar
        ∧ 1 ≤ ds.length ∧ ds.length ≤ 2 ∧ ds.all isDigitChar then
      if 1 ≤ (valOfDigits ys : Int) ∧ 1 ≤ (valOfDigits ms : Int)
          ∧ (valOfDigits ms : Int) ≤ 12 ∧ 1 ≤ (valOfDigits ds : Int)
          ∧ (valOfDigits ds : Int)
              ≤ daysInMonth (valOfDigits ys : Int) (valOfDigits ms : Int) then
        some ⟨(valOfDigits ys : Int), (valOfDigits ms : Int), (valOfDigits ds : Int)⟩
      else none
    else none
  | _ => none

/-- `week_start.strftime(DATE_FMT)` with `DATE_FMT = "%Y-%m-%d"`: zero-padded
fields.  (CPython's `%Y` padding for years below 1000 is platform-dependent;
the model adopts the padded form, and every date this program produces has a
four-digit year.) -/
def formatDate (d : PyDate) : List Char :=
  padZeros 4 (natDigits d.year.toNat) ++ '-' ::
    (padZeros 2 (natDigits d.month.toNat) ++ '-' :: padZeros 2 (natDigits d.day.toNat))

/-! ### The CSV record store (routine_core.py lines 110-146) -/

/-- The header row written by `ensure_csv`/`save_entries`. -/
def CSV_HEADER : String := "week_start,category,days,score"

/-- The parsed canonical header. -/
def canonHeader : List (List Char) := splitOnChar ',' CSV_HEADER.data

/-- Index of a column name in the header (`csv.DictReader` key lookup). -/
def colIndex (hdr : List (List Char)) (name : List Char) : Option Nat :=
  hdr.findIdx? fun f => decide (f = name)

/-- One iteration of the row loop of `load_entries` (routine_core.py lines
116-129), for one non-blank csv row.  `.ok none` is a skipped row; `.error`
is a raised exception aborting the whole load.  Evaluation order follows the
source: category check first, then `int(row["days"])`, then
`parse_date(row["week_start"])`, then `float(row["score"])`.  A row shorter
than the header gives `DictReader` a `None` field value, on which `.strip()`
/ `int()` / `strptime` / `float()` raise. -/
def loadLine (hdr : List (List Char)) (line : List Char) :
    Except PyErr (Option RoutineEntry) :=
  match colIndex hdr "category".data with
  | none => .ok none
  | some i =>
    match (splitOnChar ',' line).get? i with
    | none => .error .attributeError
    | some rawCat =>
      if String.mk (stripChars rawCat) ∈ CATEGORIES then
        match colIndex hdr "days".data with
        | none => .error (.keyError "days")
        | some j =>
          match (splitOnChar ',' line).get? j with
          | none => .error .typeError
          | some rawDays =>
            match parseInt rawDays with
            | none => .error (.valueError "invalid literal for int() with base 10")
            | some days =>
              match colIndex hdr "week_start".data with
              | none => .error (.keyError "week_start")
              | some k =>
                match (splitOnChar ',' line).get? k with
                | none => .error .typeError
                | some rawDate =>
                  match parseDateChars rawDate with
                  | none => .error (.valueError "time data does not match format")
                  | some ws =>
                    match colIndex hdr "score".data with
                    | none => .error (.keyError "score")
                    | some sIdx =>
                      match (splitOnChar ',' line).get? sIdx with
                      | none => .error .typeError
                      | some rawScore =>
                        match parseFloat rawScore with
                        | none =>
                          .error (.valueError "could not convert string to float")
                        | some score =>
                          .ok (some ⟨ws, String.mk (stripChars rawCat), days, score⟩)
      else .ok none

/-- The row loop of `load_entries`: first error aborts, skipped rows vanish,
parsed entries keep file order. -/
def loadRows (hdr : List (List Char)) : List String → Except PyErr (List RoutineEntry)
  | [] => .ok []
  | line :: rest =>
    match loadLine hdr line.data with
    | .error e => .error e
    | .ok none => loadRows hdr rest
    | .ok (some entry) =>
      match loadRows hdr rest with
      | .error e => .error e
      | .ok es => .ok (entry :: es)

/-- `load_entries` body for an existing file's lines: `csv.DictReader` takes
the first non-blank row as header and iterates the remaining non-blank rows. -/
def load_lines (lines : List String) : Except PyErr (List RoutineEntry) :=
  match lines.filter fun l => decide (¬l = "") with
  | [] => .ok []
  | hdrLine :: rest => loadRows (splitOnChar ',' hdrLine.data) rest

/-- `load_entries` (routine_core.py lines 110-130); `none` is a missing file
(`path.exists()` false), on which the function returns `[]` without touching
the filesystem. -/
def load_entries (file : Option (List String)) : Except PyErr (List RoutineEntry) :=
  match file with
  | none => .ok []
  | some lines => load_lines lines

/-- The csv row written for one entry by `save_entries` (routine_core.py lines
139-146): date, category, `str(days)`, `str(score)` joined by commas (none of
these fields contains a comma, quote or newline, so csv quoting never fires). -/
def entryLine (e : RoutineEntry) : String :=
  String.mk (formatDate e.week_start ++ ',' :: (e.category.data ++ ',' ::
    (printInt e.days ++ ',' :: printFloat e.score)))

/-- `save_entries` (routine_core.py lines 133-146): header row then one row
per entry, replacing the whole file. -/
def save_lines (entries : List RoutineEntry) : List String :=
  CSV_HEADER :: entries.map entryLine

/-! ### Round-trip lemmas for the textual encodings -/

theorem isDigitChar_spec {c : Char} (h : isDigitChar c = true) :
    48 ≤ c.toNat ∧ c.toNat ≤ 57 := by
  simpa [isDigitChar] using h

theorem digitChar_spec (n : Nat) (h : n < 10) :
    isDigitChar (digitChar n) = true ∧ digitVal (digitChar n) = n := by
  interval_cases n <;> exact ⟨by decide, by decide⟩

theorem digit_ne {c : Char} (h : isDigitChar c = true) {d : Char}
    (hd : ¬(48 ≤ d.toNat ∧ d.toNat ≤ 57)) : ¬c = d := by
  intro hc
  subst hc
  exact hd (isDigitChar_spec h)

theorem isPySpace_of_digit {c : Char} (h : isDigitChar c = true) :
    isPySpace c = false := by
  have hs := isDigitChar_spec h
  unfold isPySpace
  rw [decide_eq_false_iff_not]
  rintro (rfl | rfl | rfl | rfl | rfl | rfl) <;> revert hs <;> decide

theorem natDigits_ne_nil (n : Nat) : ¬natDigits n = [] := by
  rw [natDigits_def]
  split <;> simp

theorem natDigits_all_digit (n : Nat) :
    ∀ c ∈ natDigits n, isDigitChar c = true := by
  induction n using Nat.strong_induction_on with
  | _ n ih =>
    rw [natDigits_def]
    by_cases h : n < 10
    · rw [if_pos h]
      intro c hc
      simp only [List.mem_singleton] at hc
      subst hc
      exact (digitChar_spec n h).1
    · rw [if_neg h]
      intro c hc
      rcases List.mem_append.mp hc with hc1 | hc2
      · exact ih (n / 10) (Nat.div_lt_self (by omega) (by omega)) c hc1
      · simp only [List.mem_singleton] at hc2
        subst hc2
        exact (digitChar_spec (n % 10) (by omega)).1

theorem valOfDigits_snoc (l : List Char) (c : Char) :
    valOfDigits (l ++ [c]) = 10 * valOfDigits l + digitVal c := by
  simp [valOfDigits, List.foldl_append]

theorem valOfDigits_natDigits (n : Nat) : valOfDigits (natDigits n) = n := by
  induction n using Nat.strong_induction_on with
  | _ n ih =>
    rw [natDigits_def]
    by_cases h : n < 10
    · rw [if_pos h]
      simp [valOfDigits, (digitChar_spec n h).2]
    · rw [if_neg h, valOfDigits_snoc,
        ih (n / 10) (Nat.div_lt_self (by omega) (by omega)),
        (digitChar_spec (n % 10) (by omega)).2]
      omega

theorem natDigits_length_le (n k : Nat) (hk : 1 ≤ k) (h : n < 10 ^ k) :
    (natDigits n).length ≤ k := by
  induction n using Nat.strong_induction_on generalizing k with
  | _ n ih =>
    rw [natDigits_def]
    by_cases hn : n < 10
    · rw [if_pos hn]
      simpa using hk
    · rw [if_neg hn]
      have hk2 : 2 ≤ k := by
        by_contra hcon
        have : k = 1 := by omega
        subst this
        simp at h
        omega
      have hdiv : n / 10 < 10 ^ (k - 1) := by
        have h10 : 10 ^ k = 10 ^ (k - 1) * 10 := by
          rw [← pow_succ]
          congr 1
          omega
        omega
      have := ih (n / 10) (Nat.div_lt_self (by omega) (by omega)) (k - 1)
        (by omega) hdiv
      simp only [List.length_append, List.length_singleton]
      omega

theorem valOfDigits_lt (l : List Char) (h : l.all isDigitChar = true) :
    valOfDigits l < 10 ^ l.length := by
  induction l using List.reverseRecOn with
  | nil => simp [valOfDigits]
  | append_singleton l c ih =>
    simp only [List.all_append, List.all_cons, List.all_nil, Bool.and_true,
      Bool.and_eq_true] at h
    have hval := ih h.1
    have hc := isDigitChar_spec h.2
    have hdv : digitVal c ≤ 9 := by
      unfold digitVal
      omega
    rw [valOfDigits_snoc]
    simp only [List.length_append, List.length_singleton]
    calc 10 * valOfDigits l + digitVal c ≤ 10 * valOfDigits l + 9 := by omega
    _ < 10 * 10 ^ l.length := by omega
    _ = 10 ^ (l.length + 1) := by rw [pow_succ]; ring

theorem valOfDigits_replicate_zero (k : Nat) (l : List Char) :
    valOfDigits (List.replicate k '0' ++ l) = valOfDigits l := by
  induction k with
  | zero => simp
  | succ m ih =>
    rw [List.replicate_succ, List.cons_append]
    show valOfDigits (List.replicate m '0' ++ l) = _
    exact ih

theorem valOfDigits_padZeros (w : Nat) (l : List Char) :
    valOfDigits (padZeros w l) = valOfDigits l :=
  valOfDigits_replicate_zero _ l

theorem padZeros_length (w : Nat) (l : List Char) (h : l.length ≤ w) :
    (padZeros w l).length = w := by
  simp [padZeros]
  omega

theorem padZeros_all_digit (w : Nat) (l : List Char)
    (h : l.all isDigitChar = true) : (padZeros w l).all isDigitChar = true := by
  simp only [padZeros, List.all_append, Bool.and_eq_true]
  refine ⟨?_, h⟩
  rw [List.all_eq_true]
  intro c hc
  rw [List.eq_of_mem_replicate hc]
  decide

theorem padZeros_mem {w : Nat} {l : List Char} {c : Char}
    (hc : c ∈ padZeros w l) : c = '0' ∨ c ∈ l := by
  rcases List.mem_append.mp hc with h1 | h2
  · exact Or.inl (List.eq_of_mem_replicate h1)
  · exact Or.inr h2

theorem dropWhile_eq_self_of {p : Char → Bool} {l : List Char}
    (h : ∀ c ∈ l, p c = false) : l.dropWhile p = l := by
  cases l with
  | nil => rfl
  | cons c t =>
    rw [List.dropWhile_cons, h c (by simp)]
    simp

theorem stripChars_eq_self {l : List Char}
    (h : ∀ c ∈ l, isPySpace c = false) : stripChars l = l := by
  unfold stripChars
  rw [dropWhile_eq_self_of h, dropWhile_eq_self_of, List.reverse_reverse]
  intro c hc
  exact h c (List.mem_reverse.mp hc)

theorem splitOnChar_sepFree {sep : Char} {l : List Char}
    (h : ∀ c ∈ l, ¬c = sep) : splitOnChar sep l = [l] := by
  induction l with
  | nil => rfl
  | cons c t ih =>
    rw [splitOnChar, if_neg (h c (by simp)),
      ih fun x hx => h x (by simp [hx])]

theorem splitOnChar_append {sep : Char} {a : List Char} (b : List Char)
    (h : ∀ c ∈ a, ¬c = sep) :
    splitOnChar sep (a ++ sep :: b) = a :: splitOnChar sep b := by
  induction a with
  | nil =>
    simp only [List.nil_append]
    rw [splitOnChar, if_pos rfl]
  | cons c t ih =>
    rw [List.cons_append, splitOnChar, if_neg (h c (by simp)),
      ih fun x hx => h x (by simp [hx])]

theorem parseDigits_padded (w : Nat) (n : Nat) :
    parseDigits (padZeros w (natDigits n)) = some n := by
  unfold parseDigits
  rw [if_pos, valOfDigits_padZeros, valOfDigits_natDigits]
  constructor
  · simp only [padZeros, ← List.length_eq_zero]
    simp only [List.length_append, List.length_replicate]
    have := natDigits_ne_nil n
    have : ¬(natDigits n).length = 0 := by
      simpa [List.length_eq_zero] using this
    omega
  · exact padZeros_all_digit _ _ (by
      rw [List.all_eq_true]
      exact natDigits_all_digit n)

theorem parseDigits_natDigits (n : Nat) : parseDigits (natDigits n) = some n := by
  have h := parseDigits_padded 0 n
  simpa [padZeros] using h

theorem natDigits_noSpace (n : Nat) : ∀ c ∈ natDigits n, isPySpace c = false :=
  fun c hc => isPySpace_of_digit (natDigits_all_digit n c hc)

/-- `str` then `int()` is the identity on Python integers. -/
theorem parseInt_printInt (z : Int) : parseInt (printInt z) = some z := by
  by_cases hz : z < 0
  · unfold printInt parseInt
    rw [if_pos hz, stripChars_eq_self]
    · show (if '-' = '-' then (parseDigits (natDigits z.natAbs)).map
          (fun n => -(n : Int)) else _) = some z
      rw [if_pos rfl, parseDigits_natDigits]
      show some (-(z.natAbs : Int)) = some z
      congr 1
      omega
    · intro c hc
      rcases List.mem_cons.mp hc with rfl | hc2
      · decide
      · exact natDigits_noSpace _ c hc2
  · unfold printInt parseInt
    rw [if_neg hz, stripChars_eq_self (natDigits_noSpace _)]
    rcases hne : natDigits z.natAbs with _ | ⟨c, t⟩
    · exact absurd hne (natDigits_ne_nil _)
    · have hcd : isDigitChar c = true :=
        natDigits_all_digit z.natAbs c (by rw [hne]; simp)
      show (if c = '-' then _ else if c = '+' then _
          else (parseDigits (c :: t)).map fun n => (n : Int)) = some z
      rw [if_neg (digit_ne hcd (by decide)), if_neg (digit_ne hcd (by decide)),
        ← hne, parseDigits_natDigits]
      show some ((z.natAbs : Int)) = some z
      congr 1
      omega

/-- `strftime` then `strptime` is the identity on valid dates. -/
theorem parseDate_formatDate {d : PyDate} (hv : isValidDate d) :
    parseDateChars (formatDate d) = some d := by
  obtain ⟨hy1, hy2, hm1, hm2, hd1, hd2⟩ := hv
  have hdm : d.day ≤ 31 := by
    have : daysInMonth d.year d.month ≤ 31 := by
      unfold daysInMonth
      split_ifs <;> omega
    omega
  have hylen : (natDigits d.year.toNat).length ≤ 4 :=
    natDigits_length_le _ 4 (by omega) (by omega)
  have hmlen : (natDigits d.month.toNat).length ≤ 2 :=
    natDigits_length_le _ 2 (by omega) (by omega)
  have hdlen : (natDigits d.day.toNat).length ≤ 2 :=
    natDigits_length_le _ 2 (by omega) (by omega)
  have hyd := padZeros_all_digit 4 _ (by rw [List.all_eq_true]; exact natDigits_all_digit d.year.toNat)
  have hmd := padZeros_all_digit 2 _ (by rw [List.all_eq_true]; exact natDigits_all_digit d.month.toNat)
  have hdd := padZeros_all_digit 2 _ (by rw [List.all_eq_true]; exact natDigits_all_digit d.day.toNat)
  have hnodash : ∀ (w : Nat) (n : Nat), ∀ c ∈ padZeros w (natDigits n), ¬c = '-' := by
    intro w n c hc
    rcases padZeros_mem hc with rfl | hc2
    · decide
    · exact digit_ne (natDigits_all_digit n c hc2) (by decide)
  have ey : (valOfDigits (padZeros 4 (natDigits d.year.toNat)) : Int) = d.year := by
    rw [valOfDigits_padZeros, valOfDigits_natDigits]
    omega
  have em : (valOfDigits (padZeros 2 (natDigits d.month.toNat)) : Int) = d.month := by
    rw [valOfDigits_padZeros, valOfDigits_natDigits]
    omega
  have ed : (valOfDigits (padZeros 2 (natDigits d.day.toNat)) : Int) = d.day := by
    rw [valOfDigits_padZeros, valOfDigits_natDigits]
    omega
  unfold formatDate parseDateChars
  rw [splitOnChar_append _ (hnodash 4 d.year.toNat),
    splitOnChar_append _ (hnodash 2 d.month.toNat),
    splitOnChar_sepFree (hnodash 2 d.day.toNat)]
  dsimp only
  rw [if_pos ?hlen, if_pos ?hbound]
  case hlen =>
    refine ⟨padZeros_length 4 _ hylen, hyd, ?_, ?_, hmd, ?_, ?_, hdd⟩
    · rw [padZeros_length 2 _ hmlen]
      omega
    · rw [padZeros_length 2 _ hmlen]
    · rw [padZeros_length 2 _ hdlen]
      omega
    · rw [padZeros_length 2 _ hdlen]
  case hbound =>
    rw [ey, em, ed]
    exact ⟨hy1, hm1, hm2, hd1, hd2⟩
  congr 1
  cases d
  simp only at ey em ed ⊢
  rw [ey, em, ed]

/-- Every date `strptime` accepts is a valid (constructible) Python date. -/
theorem parseDateChars_valid {l : List Char} {d : PyDate}
    (h : parseDateChars l = some d) : isValidDate d := by
  unfold parseDateChars at h
  split at h
  · split at h
    · split at h
      · rename_i ys ms ds heq hlen hbound
        obtain ⟨hl4, hyd, _, _, _, _, _, _⟩ := hlen
        obtain ⟨h1, h2, h3, h4, h5⟩ := hbound
        have hlt : valOfDigits ys < 10 ^ ys.length := valOfDigits_lt ys hyd
        rw [hl4] at hlt
        injection h with h
        subst h
        refine ⟨h1, ?_, h2, h3, h4, h5⟩
        show (valOfDigits ys : Int) ≤ 9999
        norm_num at hlt
        omega
      · exact Option.noConfusion h
    · exact Option.noConfusion h
  · exact Option.noConfusion h

/-- The denominators reachable by `float()`: some power of ten clears them. -/
def DecimalDen (q : ℚ) : Prop := q.den ∣ 10 ^ q.den

/-- A divisor of a power of ten divides the power of ten with its own
exponent. -/
theorem dvd_ten_pow (n m : Nat) (h : n ∣ 10 ^ m) : n ∣ 10 ^ n := by
  induction n using Nat.strong_induction_on generalizing m with
  | _ n ih =>
    by_cases h1 : n ≤ 1
    · rcases Nat.le_one_iff_eq_zero_or_eq_one.mp h1 with rfl | rfl
      · exact absurd (Nat.eq_zero_of_zero_dvd h) (by positivity)
      · exact one_dvd _
    · have hne1 : ¬n = 1 := by omega
      have hp : n.minFac.Prime := Nat.minFac_prime hne1
      have hpn : n.minFac ∣ n := Nat.minFac_dvd n
      have hp10 : n.minFac ∣ 10 := hp.dvd_of_dvd_pow (hpn.trans h)
      have hple : n.minFac ≤ 10 := Nat.le_of_dvd (by norm_num) hp10
      have hp2 : 2 ≤ n.minFac := hp.two_le
      have hdivlt : n / n.minFac < n := Nat.div_lt_self (by omega) hp2
      have hdvd : n / n.minFac ∣ 10 ^ m := (Nat.div_dvd_of_dvd hpn).trans h
      have hrec := ih (n / n.minFac) hdivlt m hdvd
      have hsplit : n = n.minFac * (n / n.minFac) := (Nat.mul_div_cancel' hpn).symm
      have hstep : n ∣ 10 ^ (n / n.minFac + 1) := by
        have h2 : n.minFac * (n / n.minFac) ∣ 10 * 10 ^ (n / n.minFac) :=
          mul_dvd_mul hp10 hrec
        rw [← hsplit] at h2
        have h3 : (10 : Nat) * 10 ^ (n / n.minFac) = 10 ^ (n / n.minFac + 1) := by
          ring
        rw [h3] at h2
        exact h2
      exact hstep.trans (pow_dvd_pow 10 (by omega))

/-- If multiplying by `10 ^ M` makes `q` an integer, its denominator divides
`10 ^ M`. -/
theorem den_dvd_of_scaled {q : ℚ} {M : Nat} {N : Int}
    (h : q * 10 ^ M = (N : ℚ)) : q.den ∣ 10 ^ M := by
  have hpow : ((10 : ℚ) ^ M) ≠ 0 := by positivity
  have hq : q = (N : ℚ) / ((10 : ℚ) ^ M) := by
    rw [eq_div_iff hpow]
    exact h
  have key := Rat.den_dvd N ((10 : Int) ^ M)
  rw [Rat.divInt_eq_div] at key
  have hcast : (((10 : Int) ^ M : Int) : ℚ) = (10 : ℚ) ^ M := by
    push_cast
    ring
  rw [hcast, ← hq] at key
  have h2 : ((10 : ℤ) ^ M) = ((10 ^ M : ℕ) : ℤ) := by
    push_cast
    ring
  rw [h2] at key
  exact_mod_cast key

theorem decimalDen_of_scaled {q : ℚ} {M : Nat} {N : Int}
    (h : q * 10 ^ M = (N : ℚ)) : DecimalDen q :=
  dvd_ten_pow q.den M (den_dvd_of_scaled h)

theorem parseMantissa_scaled {m : List Char} {q : ℚ}
    (h : parseMantissa m = some q) : ∃ (M : Nat) (N : Int), q * 10 ^ M = (N : ℚ) := by
  unfold parseMantissa at h
  split at h
  · split at h
    · injection h with h
      exact ⟨0, valOfDigits _, by rw [← h]; push_cast; ring⟩
    · exact Option.noConfusion h
  · split at h
    · rename_i a b heq hcond
      injection h with h
      refine ⟨b.length, (valOfDigits a : Int) * 10 ^ b.length + valOfDigits b, ?_⟩
      rw [← h]
      have hpow : ((10 : ℚ) ^ b.length) ≠ 0 := by positivity
      push_cast
      field_simp
    · exact Option.noConfusion h
  · exact Option.noConfusion h

theorem parseFloatUnsigned_scaled {l : List Char} {q : ℚ}
    (h : parseFloatUnsigned l = some q) :
    ∃ (M : Nat) (N : Int), q * 10 ^ M = (N : ℚ) := by
  unfold parseFloatUnsigned at h
  split at h
  · exact parseMantissa_scaled h
  · split at h
    · rename_i m e heq mq ex hm he
      obtain ⟨M0, N0, h0⟩ := parseMantissa_scaled hm
      injection h with h
      subst h
      by_cases hex : 0 ≤ ex
      · refine ⟨M0, N0 * 10 ^ ex.toNat, ?_⟩
        have hzp : (10 : ℚ) ^ ex = (10 : ℚ) ^ ex.toNat := by
          rw [← zpow_natCast]
          congr 1
          omega
        rw [hzp]
        push_cast
        rw [mul_comm mq _, mul_assoc, h0]
        ring
      · refine ⟨M0 + ex.natAbs, N0, ?_⟩
        have hsum : (10 : ℚ) ^ ex * (10 : ℚ) ^ (ex.natAbs : Int) = 1 := by
          rw [← zpow_add₀ (by norm_num : (10 : ℚ) ≠ 0)]
          have : ex + (ex.natAbs : Int) = 0 := by omega
          rw [this]
          rfl
        calc mq * 10 ^ ex * 10 ^ (M0 + ex.natAbs)
            = mq * 10 ^ M0 * ((10 : ℚ) ^ ex * (10 : ℚ) ^ (ex.natAbs : Int)) := by
              rw [zpow_natCast (10 : ℚ) ex.natAbs, pow_add]
              ring
          _ = (N0 : ℚ) := by rw [hsum, mul_one, h0]
    · exact Option.noConfusion h

/-- Every value `float()` can return has a power-of-ten-clearing
denominator. -/
theorem parseFloat_decimalDen {l : List Char} {q : ℚ}
    (h : parseFloat l = some q) : DecimalDen q := by
  unfold parseFloat at h
  split at h
  · exact Option.noConfusion h
  · rename_i c rest heq
    split at h
    · rcases Option.map_eq_some'.mp h with ⟨q0, hq0, rfl⟩
      obtain ⟨M, N, hs⟩ := parseFloatUnsigned_scaled hq0
      refine decimalDen_of_scaled (M := M) (N := -N) ?_
      push_cast
      rw [← hs]
      ring
    · split at h
      · obtain ⟨M, N, hs⟩ := parseFloatUnsigned_scaled h
        exact decimalDen_of_scaled hs
      · obtain ⟨M, N, hs⟩ := parseFloatUnsigned_scaled h
        exact decimalDen_of_scaled hs

theorem pow10Exp_dvd {den : Nat} (h : den ∣ 10 ^ den) :
    den ∣ 10 ^ pow10Exp den := by
  unfold pow10Exp
  cases hf : (List.range (den + 1)).find? fun k => decide (den ∣ 10 ^ k) with
  | some k =>
    have := List.find?_some hf
    simp only [decide_eq_true_eq] at this
    simpa using this
  | none =>
    exfalso
    have := List.find?_eq_none.mp hf den (by simp)
    simp only [decide_eq_true_eq] at this
    exact this h

theorem breakOnExp_no {l : List Char} (h : ∀ c ∈ l, ¬c = 'e' ∧ ¬c = 'E') :
    breakOnExp l = (l, none) := by
  induction l with
  | nil => rfl
  | cons c t ih =>
    rw [breakOnExp, if_neg]
    · rw [ih fun x hx => h x (by simp [hx])]
    · have := h c (by simp)
      tauto

theorem parseMantissa_shape {a b : List Char} (ha : ¬a = [])
    (hadig : a.all isDigitChar = true) (hbdig : b.all isDigitChar = true) :
    parseMantissa (a ++ '.' :: b)
      = some ((valOfDigits a : ℚ) + (valOfDigits b : ℚ) / 10 ^ b.length) := by
  unfold parseMantissa
  rw [splitOnChar_append b
      (fun c hc => digit_ne (List.all_eq_true.mp hadig c hc) (by decide)),
    splitOnChar_sepFree
      (fun c hc => digit_ne (List.all_eq_true.mp hbdig c hc) (by decide))]
  dsimp only
  rw [if_pos ⟨fun hcon => ha hcon.1, hadig, hbdig⟩]

theorem parseFloatUnsigned_shape {a b : List Char} (ha : ¬a = [])
    (hadig : a.all isDigitChar = true) (hbdig : b.all isDigitChar = true) :
    parseFloatUnsigned (a ++ '.' :: b)
      = some ((valOfDigits a : ℚ) + (valOfDigits b : ℚ) / 10 ^ b.length) := by
  unfold parseFloatUnsigned
  rw [breakOnExp_no]
  · exact parseMantissa_shape ha hadig hbdig
  · intro c hc
    rcases List.mem_append.mp hc with h1 | h2
    · exact ⟨digit_ne (List.all_eq_true.mp hadig c h1) (by decide),
        digit_ne (List.all_eq_true.mp hadig c h1) (by decide)⟩
    · rcases List.mem_cons.mp h2 with rfl | h3
      · exact ⟨by decide, by decide⟩
      · exact ⟨digit_ne (List.all_eq_true.mp hbdig c h3) (by decide),
          digit_ne (List.all_eq_true.mp hbdig c h3) (by decide)⟩

/-- The characters `str(float)` emits for a nonnegative exact decimal. -/
theorem printFloatPos_chars (q : ℚ) :
    ∀ c ∈ printFloatPos q, isDigitChar c = true ∨ c = '.' := by
  intro c hc
  simp only [printFloatPos] at hc
  split at hc
  · rcases List.mem_append.mp hc with h1 | h2
    · exact Or.inl (natDigits_all_digit _ c h1)
    · rcases List.mem_cons.mp h2 with rfl | h3
      · exact Or.inr rfl
      · simp only [List.mem_singleton] at h3
        subst h3
        exact Or.inl (by decide)
  · rcases List.mem_append.mp hc with h1 | h2
    · exact Or.inl (natDigits_all_digit _ c h1)
    · rcases List.mem_cons.mp h2 with rfl | h3
      · exact Or.inr rfl
      · rcases padZeros_mem h3 with rfl | h4
        · exact Or.inl (by decide)
        · exact Or.inl (natDigits_all_digit _ c h4)

theorem printFloatPos_shape (q : ℚ) :
    ∃ c t, printFloatPos q = c :: t ∧ isDigitChar c = true := by
  simp only [printFloatPos]
  split
  · rcases hne : natDigits (q.num.natAbs * 10 ^ pow10Exp q.den / q.den)
      with _ | ⟨c, t⟩
    · exact absurd hne (natDigits_ne_nil _)
    · refine ⟨c, t ++ ['.', '0'], by simp, ?_⟩
      exact natDigits_all_digit _ c (by rw [hne]; simp)
  · rcases hne : natDigits
        (q.num.natAbs * 10 ^ pow10Exp q.den / q.den / 10 ^ pow10Exp q.den)
      with _ | ⟨c, t⟩
    · exact absurd hne (natDigits_ne_nil _)
    · refine ⟨c, t ++ '.' :: padZeros (pow10Exp q.den)
        (natDigits (q.num.natAbs * 10 ^ pow10Exp q.den / q.den
          % 10 ^ pow10Exp q.den)), by simp [hne], ?_⟩
      exact natDigits_all_digit _ c (by rw [hne]; simp)

/-- `float(str(x))` recovers a nonnegative exact decimal exactly. -/
theorem parseFloatUnsigned_printFloatPos {q : ℚ} (hq : 0 ≤ q)
    (hden : q.den ∣ 10 ^ pow10Exp q.den) :
    parseFloatUnsigned (printFloatPos q) = some q := by
  have hdnz : (q.den : ℚ) ≠ 0 := by
    exact_mod_cast q.den_nz
  have hdvdA : q.den ∣ q.num.natAbs * 10 ^ pow10Exp q.den :=
    Dvd.dvd.mul_left hden _
  have hA : ((q.num.natAbs : ℕ) : ℚ) = (q.num : ℚ) := by
    have h2 : |q.num| = q.num := abs_of_nonneg (Rat.num_nonneg.mpr hq)
    calc ((q.num.natAbs : ℕ) : ℚ) = ((|q.num| : ℤ) : ℚ) := by
          rw [Int.abs_eq_natAbs, Int.cast_natCast]
    _ = (q.num : ℚ) := by rw [h2]
  have hcast : ((q.num.natAbs * 10 ^ pow10Exp q.den / q.den : ℕ) : ℚ)
      = q * 10 ^ pow10Exp q.den := by
    rw [Nat.cast_div hdvdA hdnz]
    push_cast
    rw [hA]
    calc ((q.num : ℚ) * 10 ^ pow10Exp q.den) / (q.den : ℚ)
        = ((q.num : ℚ) / (q.den : ℚ)) * 10 ^ pow10Exp q.den := by ring
    _ = q * 10 ^ pow10Exp q.den := by rw [Rat.num_div_den]
  simp only [printFloatPos]
  split
  · rename_i hk0
    rw [parseFloatUnsigned_shape (natDigits_ne_nil _)
        (by rw [List.all_eq_true]; exact natDigits_all_digit _) (by decide)]
    rw [valOfDigits_natDigits, show valOfDigits ['0'] = 0 from rfl, hcast, hk0]
    norm_num
  · rename_i hkne
    have hk1 : 1 ≤ pow10Exp q.den := by omega
    have hppos : 0 < 10 ^ pow10Exp q.den := by positivity
    have hmodlt : q.num.natAbs * 10 ^ pow10Exp q.den / q.den % 10 ^ pow10Exp q.den
        < 10 ^ pow10Exp q.den := Nat.mod_lt _ hppos
    have hblen : (padZeros (pow10Exp q.den)
        (natDigits (q.num.natAbs * 10 ^ pow10Exp q.den / q.den
          % 10 ^ pow10Exp q.den))).length = pow10Exp q.den :=
      padZeros_length _ _ (natDigits_length_le _ _ hk1 hmodlt)
    rw [parseFloatUnsigned_shape (natDigits_ne_nil _)
        (by rw [List.all_eq_true]; exact natDigits_all_digit _)
        (padZeros_all_digit _ _
          (by rw [List.all_eq_true]; exact natDigits_all_digit _))]
    rw [valOfDigits_natDigits, valOfDigits_padZeros, valOfDigits_natDigits, hblen]
    congr 1
    have hpow : ((10 : ℚ) ^ pow10Exp q.den) ≠ 0 := by positivity
    have hnat := Nat.div_add_mod
      (q.num.natAbs * 10 ^ pow10Exp q.den / q.den) (10 ^ pow10Exp q.den)
    have key : ((q.num.natAbs * 10 ^ pow10Exp q.den / q.den
            / 10 ^ pow10Exp q.den : ℕ) : ℚ) * (10 : ℚ) ^ pow10Exp q.den
        + ((q.num.natAbs * 10 ^ pow10Exp q.den / q.den
            % 10 ^ pow10Exp q.den : ℕ) : ℚ)
        = q * (10 : ℚ) ^ pow10Exp q.den := by
      have hc := congrArg (fun n : ℕ => (n : ℚ)) hnat
      push_cast at hc
      rw [hcast] at hc
      linarith [hc]
    have hfin : ((q.num.natAbs * 10 ^ pow10Exp q.den / q.den
            / 10 ^ pow10Exp q.den : ℕ) : ℚ)
        + ((q.num.natAbs * 10 ^ pow10Exp q.den / q.den
            % 10 ^ pow10Exp q.den : ℕ) : ℚ) / (10 : ℚ) ^ pow10Exp q.den
        = (q * (10 : ℚ) ^ pow10Exp q.den) / (10 : ℚ) ^ pow10Exp q.den := by
      rw [← key, add_div, mul_div_cancel_right₀ _ hpow]
    rw [hfin, mul_div_cancel_right₀ _ hpow]

theorem printFloatPos_noSpace (r : ℚ) : ∀ c ∈ printFloatPos r, isPySpace c = false := by
  intro c hc
  rcases printFloatPos_chars r c hc with hd | rfl
  · exact isPySpace_of_digit hd
  · decide

/-- `float(str(x))` is the identity on the exact decimals `float()` can
produce. -/
theorem parseFloat_printFloat {q : ℚ} (h : DecimalDen q) :
    parseFloat (printFloat q) = some q := by
  by_cases hneg : q < 0
  · unfold printFloat
    rw [if_pos hneg]
    unfold parseFloat
    rw [stripChars_eq_self]
    · show (if '-' = '-' then (parseFloatUnsigned (printFloatPos (-q))).map
          (fun r => -r) else _) = some q
      rw [if_pos rfl]
      have hd2 : (-q).den ∣ 10 ^ pow10Exp (-q).den := by
        rw [Rat.neg_den]
        exact pow10Exp_dvd h
      rw [parseFloatUnsigned_printFloatPos (by linarith) hd2]
      show some (-(-q)) = some q
      rw [neg_neg]
    · intro c hc
      rcases List.mem_cons.mp hc with rfl | hc2
      · decide
      · exact printFloatPos_noSpace (-q) c hc2
  · unfold printFloat
    rw [if_neg hneg]
    unfold parseFloat
    rw [stripChars_eq_self (printFloatPos_noSpace q)]
    obtain ⟨c, t, heq, hcd⟩ := printFloatPos_shape q
    rw [heq]
    show (if c = '-' then _ else if c = '+' then _
        else parseFloatUnsigned (c :: t)) = some q
    rw [if_neg (digit_ne hcd (by decide)), if_neg (digit_ne hcd (by decide)),
      ← heq]
    exact parseFloatUnsigned_printFloatPos (by linarith) (pow10Exp_dvd h)

/-- The entries `load_entries` can return: known category, constructible
date, decimal score. -/
def GoodEntry (e : RoutineEntry) : Prop :=
  e.category ∈ CATEGORIES ∧ isValidDate e.week_start ∧ DecimalDen e.score

/-- Every entry a successful `loadLine` produces is good. -/
theorem loadLine_good {hdr : List (List Char)} {l : List Char} {e : RoutineEntry}
    (h : loadLine hdr l = .ok (some e)) : GoodEntry e := by
  unfold loadLine at h
  split at h
  · exact Option.noConfusion (Except.ok.inj h)
  · split at h
    · exact Except.noConfusion h
    · split at h
      case isTrue hmem =>
        split at h
        · exact Except.noConfusion h
        · split at h
          · exact Except.noConfusion h
          · split at h
            · exact Except.noConfusion h
            · split at h
              · exact Except.noConfusion h
              · split at h
                · exact Except.noConfusion h
                · split at h
                  · exact Except.noConfusion h
                  case h_2 ws hws =>
                    split at h
                    · exact Except.noConfusion h
                    · split at h
                      · exact Except.noConfusion h
                      · split at h
                        · exact Except.noConfusion h
                        case h_2 score hscore =>
                          have he := Option.some.inj (Except.ok.inj h)
                          subst he
                          exact ⟨hmem, parseDateChars_valid hws,
                            parseFloat_decimalDen hscore⟩
      case isFalse hmem =>
        exact Option.noConfusion (Except.ok.inj h)

/-- Reduction of `loadLine` under the canonical header for a four-field row. -/
theorem loadLine_fields {line f0 f1 f2 f3 : List Char}
    (hsplit : splitOnChar ',' line = [f0, f1, f2, f3]) :
    loadLine canonHeader line =
      (if String.mk (stripChars f1) ∈ CATEGORIES then
        match parseInt f2 with
        | none => .error (.valueError "invalid literal for int() with base 10")
        | some days =>
          match parseDateChars f0 with
          | none => .error (.valueError "time data does not match format")
          | some ws =>
            match parseFloat f3 with
            | none => .error (.valueError "could not convert string to float")
            | some score => .ok (some ⟨ws, String.mk (stripChars f1), days, score⟩)
      else .ok none) := by
  unfold loadLine
  rw [hsplit]
  rfl

/-- Character inventory of a printed date. -/
theorem formatDate_chars (d : PyDate) :
    ∀ c ∈ formatDate d, isDigitChar c = true ∨ c = '-' := by
  intro c hc
  unfold formatDate at hc
  rcases List.mem_append.mp hc with h1 | h2
  · rcases padZeros_mem h1 with rfl | h3
    · exact Or.inl (by decide)
    · exact Or.inl (natDigits_all_digit _ c h3)
  · rcases List.mem_cons.mp h2 with rfl | h3
    · exact Or.inr rfl
    · rcases List.mem_append.mp h3 with h4 | h5
      · rcases padZeros_mem h4 with rfl | h6
        · exact Or.inl (by decide)
        · exact Or.inl (natDigits_all_digit _ c h6)
      · rcases List.mem_cons.mp h5 with rfl | h6
        · exact Or.inr rfl
        · rcases padZeros_mem h6 with rfl | h7
          · exact Or.inl (by decide)
          · exact Or.inl (natDigits_all_digit _ c h7)

theorem printInt_chars (z : Int) :
    ∀ c ∈ printInt z, isDigitChar c = true ∨ c = '-' := by
  intro c hc
  unfold printInt at hc
  split at hc
  · rcases List.mem_cons.mp hc with rfl | h2
    · exact Or.inr rfl
    · exact Or.inl (natDigits_all_digit _ c h2)
  · exact Or.inl (natDigits_all_digit _ c hc)

theorem printFloat_chars (q : ℚ) :
    ∀ c ∈ printFloat q, isDigitChar c = true ∨ c = '.' ∨ c = '-' := by
  intro c hc
  unfold printFloat at hc
  split at hc
  · rcases List.mem_cons.mp hc with rfl | h2
    · exact Or.inr (Or.inr rfl)
    · rcases printFloatPos_chars _ c h2 with h3 | rfl
      · exact Or.inl h3
      · exact Or.inr (Or.inl rfl)
  · rcases printFloatPos_chars _ c hc with h3 | rfl
    · exact Or.inl h3
    · exact Or.inr (Or.inl rfl)

/-- The five category labels contain no comma and no surrounding
whitespace. -/
theorem category_charFacts :
    ∀ s ∈ CATEGORIES, ∀ c ∈ s.data, ¬c = ',' ∧ isPySpace c = false := by
  decide

/-- A saved row parses back to exactly the entry it was written from. -/
theorem loadLine_entryLine {e : RoutineEntry} (hg : GoodEntry e) :
    loadLine canonHeader (entryLine e).data = .ok (some e) := by
  obtain ⟨hmem, hvalid, hdec⟩ := hg
  have hdate_nc : ∀ c ∈ formatDate e.week_start, ¬c = ',' := by
    intro c hc
    rcases formatDate_chars _ c hc with hd | rfl
    · exact digit_ne hd (by decide)
    · decide
  have hcat_nc : ∀ c ∈ e.category.data, ¬c = ',' :=
    fun c hc => (category_charFacts _ hmem c hc).1
  have hint_nc : ∀ c ∈ printInt e.days, ¬c = ',' := by
    intro c hc
    rcases printInt_chars _ c hc with hd | rfl
    · exact digit_ne hd (by decide)
    · decide
  have hfloat_nc : ∀ c ∈ printFloat e.score, ¬c = ',' := by
    intro c hc
    rcases printFloat_chars _ c hc with hd | rfl | rfl
    · exact digit_ne hd (by decide)
    · decide
    · decide
  have hsplit : splitOnChar ',' (entryLine e).data
      = [formatDate e.week_start, e.category.data, printInt e.days,
        printFloat e.score] := by
    show splitOnChar ','
        (formatDate e.week_start ++ ',' :: (e.category.data ++ ',' ::
          (printInt e.days ++ ',' :: printFloat e.score)))
      = [formatDate e.week_start, e.category.data, printInt e.days,
        printFloat e.score]
    rw [splitOnChar_append _ hdate_nc, splitOnChar_append _ hcat_nc,
      splitOnChar_append _ hint_nc, splitOnChar_sepFree hfloat_nc]
  have hstrip : stripChars e.category.data = e.category.data :=
    stripChars_eq_self fun c hc => (category_charFacts _ hmem c hc).2
  have hcatstr : String.mk e.category.data = e.category := rfl
  rw [loadLine_fields hsplit, hstrip, hcatstr, if_pos hmem, parseInt_printInt,
    parseDate_formatDate hvalid, parseFloat_printFloat hdec]

/-- A skipped row: the category field exists but is not one of the five
labels. -/
theorem loadLine_skip {line f1 : List Char}
    (hget : (splitOnChar ',' line).get? 1 = some f1)
    (hnot : ¬String.mk (stripChars f1) ∈ CATEGORIES) :
    loadLine canonHeader line = .ok none := by
  unfold loadLine
  split
  · rfl
  case h_2 i heq =>
    have h0 : colIndex canonHeader "category".data = some 1 := by decide
    rw [h0] at heq
    have hi := Option.some.inj heq
    subst hi
    rw [hget]
    dsimp only
    rw [if_neg hnot]

theorem loadRows_skip {hdr : List (List Char)} (pre post : List String)
    {bad : String} (hskip : loadLine hdr bad.data = .ok none) :
    loadRows hdr (pre ++ bad :: post) = loadRows hdr (pre ++ post) := by
  induction pre with
  | nil =>
    simp only [List.nil_append]
    rw [loadRows, hskip]
  | cons p ps ih =>
    rw [List.cons_append, List.cons_append, loadRows, loadRows, ih]

theorem loadRows_error {hdr : List (List Char)} (pre post : List String)
    {bad : String} (hpre : ∀ l ∈ pre, ∃ r, loadLine hdr l.data = .ok r)
    (hbad : ∃ msg, loadLine hdr bad.data = .error (.valueError msg)) :
    ∃ msg, loadRows hdr (pre ++ bad :: post) = .error (.valueError msg) := by
  induction pre with
  | nil =>
    obtain ⟨msg, hmsg⟩ := hbad
    refine ⟨msg, ?_⟩
    simp only [List.nil_append]
    rw [loadRows, hmsg]
  | cons p ps ih =>
    obtain ⟨r, hr⟩ := hpre p (by simp)
    obtain ⟨msg, hmsg⟩ := ih fun l hl => hpre l (by simp [hl])
    refine ⟨msg, ?_⟩
    rw [List.cons_append, loadRows, hr]
    cases r with
    | none => exact hmsg
    | some entry =>
      rw [hmsg]

theorem loadRows_all {hdr : List (List Char)} {rows : List String}
    {es : List RoutineEntry}
    (h : List.Forall₂ (fun l e => loadLine hdr l.data = .ok (some e)) rows es) :
    loadRows hdr rows = .ok es := by
  induction h with
  | nil => rfl
  | cons hle _ ih =>
    rw [loadRows, hle, ih]

theorem loadRows_good {hdr : List (List Char)} :
    ∀ {lines : List String} {es : List RoutineEntry},
      loadRows hdr lines = .ok es → ∀ e ∈ es, GoodEntry e := by
  intro lines
  induction lines with
  | nil =>
    intro es h e he
    rw [loadRows] at h
    have := Except.ok.inj h
    subst this
    simp at he
  | cons l rest ih =>
    intro es h e he
    rw [loadRows] at h
    split at h
    · exact Except.noConfusion h
    · exact ih h e he
    case h_3 entry heq =>
      split at h
      · exact Except.noConfusion h
      case h_2 es2 heq2 =>
        have := Except.ok.inj h
        subst this
        rcases List.mem_cons.mp he with rfl | he2
        · exact loadLine_good heq
        · exact ih heq2 e he2

/-- `load_entries` of a header plus rows is the row loop over the non-blank
rows. -/
theorem load_lines_cons (rows : List String) :
    load_lines (CSV_HEADER :: rows)
      = loadRows canonHeader (rows.filter fun l => decide (¬l = "")) := by
  unfold load_lines
  rw [List.filter_cons]
  rfl

theorem entryLine_ne_empty (e : RoutineEntry) : ¬entryLine e = "" := by
  intro hcon
  have hdata : (entryLine e).data = [] := by rw [hcon]
  have hdata2 : formatDate e.week_start ++ ',' :: (e.category.data ++ ',' ::
      (printInt e.days ++ ',' :: printFloat e.score)) = [] := hdata
  have h1 := (List.append_eq_nil.mp hdata2).1
  unfold formatDate at h1
  exact absurd (List.append_eq_nil.mp h1).2 (List.cons_ne_nil _ _)

theorem load_lines_save_lines {es : List RoutineEntry}
    (h : ∀ e ∈ es, GoodEntry e) : load_lines (save_lines es) = .ok es := by
  unfold save_lines
  rw [load_lines_cons]
  rw [List.filter_eq_self.mpr]
  · apply loadRows_all
    induction es with
    | nil => exact List.Forall₂.nil
    | cons e rest ih =>
      simp only [List.map_cons]
      exact List.Forall₂.cons (loadLine_entryLine (h e (by simp)))
        (ih fun x hx => h x (by simp [hx]))
  · intro l hl
    rcases List.mem_map.mp hl with ⟨e, _, rfl⟩
    simpa using entryLine_ne_empty e

theorem forall2_filter_id {rows : List String} {es : List RoutineEntry}
    (h : List.Forall₂ (fun l e => loadLine canonHeader l.data = .ok (some e))
      rows es) :
    rows.filter (fun l => decide (¬l = "")) = rows := by
  induction h with
  | nil => rfl
  | cons hle _ ih =>
    rename_i l e ls es2 _
    have hne : ¬l = "" := by
      intro hcon
      rw [hcon] at hle
      have h0 : loadLine canonHeader ("" : String).data
          = .error .attributeError := by decide
      rw [h0] at hle
      exact Except.noConfusion hle
    rw [List.filter_cons_of_pos (by simpa using hne), ih]

/-- C6: `load_entries` parses every row under the written header; a row whose
(stripped) category field is not one of the five labels is silently skipped
and has no effect on the result; and if any non-skipped row's count, date or
score field fails to parse, the entire load fails with the raised
`ValueError` — no partial entry list is returned. -/
theorem claim_c6 :
    (∀ (line f1 : List Char),
        (splitOnChar ',' line).get? 1 = some f1 →
        ¬String.mk (stripChars f1) ∈ CATEGORIES →
        loadLine canonHeader line = .ok none)
    ∧ (∀ (pre post : List String) (bad : String),
        loadLine canonHeader bad.data = .ok none →
        load_lines (CSV_HEADER :: (pre ++ bad :: post))
          = load_lines (CSV_HEADER :: (pre ++ post)))
    ∧ (∀ (pre post : List String) (bad : String) (f0 f1 f2 f3 : List Char),
        (∀ l ∈ pre, ∃ r, loadLine canonHeader l.data = .ok r) →
        splitOnChar ',' bad.data = [f0, f1, f2, f3] →
        String.mk (stripChars f1) ∈ CATEGORIES →
        (parseInt f2 = none ∨ parseDateChars f0 = none ∨ parseFloat f3 = none) →
        ∃ msg, load_lines (CSV_HEADER :: (pre ++ bad :: post))
          = .error (.valueError msg))
    ∧ (∀ (rows : List String) (es : List RoutineEntry),
        List.Forall₂ (fun l e => loadLine canonHeader l.data = .ok (some e))
          rows es →
        load_lines (CSV_HEADER :: rows) = .ok es) := by
  refine ⟨fun line f1 hget hnot => loadLine_skip hget hnot, ?_, ?_, ?_⟩
  · intro pre post bad hskip
    have hbadne : ¬bad = "" := by
      intro hcon
      rw [hcon] at hskip
      exact absurd hskip (by decide)
    rw [load_lines_cons, load_lines_cons, List.filter_append,
      List.filter_cons_of_pos (by simpa using hbadne), List.filter_append]
    exact loadRows_skip _ _ hskip
  · intro pre post bad f0 f1 f2 f3 hpre hbadsplit hmem hfail
    have hbad : ∃ msg, loadLine canonHeader bad.data
        = .error (.valueError msg) := by
      rcases hfail with hint | hdate | hfloat
      · exact ⟨"invalid literal for int() with base 10",
          by rw [loadLine_fields hbadsplit, if_pos hmem, hint]⟩
      · cases hi : parseInt f2 with
        | none =>
          exact ⟨"invalid literal for int() with base 10",
            by rw [loadLine_fields hbadsplit, if_pos hmem, hi]⟩
        | some n =>
          exact ⟨"time data does not match format",
            by rw [loadLine_fields hbadsplit, if_pos hmem, hi, hdate]⟩
      · cases hi : parseInt f2 with
        | none =>
          exact ⟨"invalid literal for int() with base 10",
            by rw [loadLine_fields hbadsplit, if_pos hmem, hi]⟩
        | some n =>
          cases hd : parseDateChars f0 with
          | none =>
            exact ⟨"time data does not match format",
              by rw [loadLine_fields hbadsplit, if_pos hmem, hi, hd]⟩
          | some ws =>
            exact ⟨"could not convert string to float",
              by rw [loadLine_fields hbadsplit, if_pos hmem, hi, hd, hfloat]⟩
    have hprene : ∀ l ∈ pre, ¬l = "" := by
      intro l hl hcon
      obtain ⟨r, hr⟩ := hpre l hl
      rw [hcon] at hr
      have h0 : loadLine canonHeader ("" : String).data
          = .error .attributeError := by decide
      rw [h0] at hr
      exact Except.noConfusion hr
    have hbadne : ¬bad = "" := by
      intro hcon
      obtain ⟨msg, hmsg⟩ := hbad
      rw [hcon] at hmsg
      have : (PyErr.valueError msg) = PyErr.attributeError := by
        have h0 : loadLine canonHeader ("" : String).data
            = .error .attributeError := by decide
        rw [h0] at hmsg
        exact (Except.error.inj hmsg).symm
      exact PyErr.noConfusion this
    rw [load_lines_cons, List.filter_append,
      List.filter_cons_of_pos (by simpa using hbadne),
      List.filter_eq_self.mpr (fun l hl => by simpa using hprene l hl)]
    exact loadRows_error pre _ hpre hbad
  · intro rows es hfa
    rw [load_lines_cons, forall2_filter_id hfa]
    exact loadRows_all hfa

/-- Witness for C6: a stray-category row is skipped (even with garbage
fields), a bad count aborts the whole load with a `ValueError`, and a good
file parses to its entries. -/
theorem claim_c6_witness :
    loadLine canonHeader ("2024-01-01,합계,9,x" : String).data = .ok none
    ∧ load_lines [CSV_HEADER, "2024-01-01,운동,7,30", "2024-01-01,합계,9,x"]
        = load_lines [CSV_HEADER, "2024-01-01,운동,7,30"]
    ∧ (∃ msg, load_lines [CSV_HEADER, "2024-01-01,운동,7,30",
          "2024-01-01,운동,abc,30"] = .error (.valueError msg))
    ∧ load_lines [CSV_HEADER, "2024-01-01,운동,7,30"]
        = .ok [⟨⟨2024, 1, 1⟩, "운동", 7, 30⟩] := by
  refine ⟨claim_c6.1 _ ("합계" : String).data (by decide) (by decide), ?_, ?_, ?_⟩
  · exact claim_c6.2.1 ["2024-01-01,운동,7,30"] [] "2024-01-01,합계,9,x"
      (claim_c6.1 _ ("합계" : String).data (by decide) (by decide))
  · exact claim_c6.2.2.1 ["2024-01-01,운동,7,30"] [] "2024-01-01,운동,abc,30"
      ("2024-01-01" : String).data ("운동" : String).data
      ("abc" : String).data ("30" : String).data
      (by
        intro l hl
        simp only [List.mem_singleton] at hl
        subst hl
        exact ⟨some ⟨⟨2024, 1, 1⟩, "운동", 7, 30⟩, by decide⟩)
      (by decide) (by decide) (Or.inl (by decide))
  · exact claim_c6.2.2.2 _ [⟨⟨2024, 1, 1⟩, "운동", 7, 30⟩]
      (List.Forall₂.cons (by decide) List.Forall₂.nil)

/-- C7 counterexample: `save(load(f))` is not a no-op for every file.  The
file below is loadable, but `load` re-parses the integer-formatted score `30`
as the float `30.0`, and `save` writes the reformatted row back. -/
theorem claim_c7_counterexample :
    load_lines ["week_start,category,days,score", "2024-01-01,생활리듬,7,30"]
        = .ok [⟨⟨2024, 1, 1⟩, "생활리듬", 7, 30⟩]
    ∧ ¬save_lines [⟨⟨2024, 1, 1⟩, "생활리듬", 7, 30⟩]
        = ["week_start,category,days,score", "2024-01-01,생활리듬,7,30"]
    ∧ save_lines [⟨⟨2024, 1, 1⟩, "생활리듬", 7, 30⟩]
        = ["week_start,category,days,score", "2024-01-01,생활리듬,7,30.0"] := by
  refine ⟨by decide, by decide, by decide⟩

/-- C7 (amended): one `save(load(·))` round canonicalizes a file, after which
`save(load(·))` is a no-op: whenever `load` accepts a file yielding entries
`es`, loading the file `save` writes for `es` yields `es` again — so the
written file is a fixed point: saving what it loads reproduces it
byte-for-byte. -/
theorem claim_c7_amended :
    ∀ (f : List String) (es : List RoutineEntry),
      load_lines f = .ok es →
      load_lines (save_lines es) = .ok es
      ∧ ∀ es2, load_lines (save_lines es) = .ok es2 →
          save_lines es2 = save_lines es := by
  intro f es h
  have hg : ∀ e ∈ es, GoodEntry e := by
    intro e he
    unfold load_lines at h
    split at h
    · have := Except.ok.inj h
      subst this
      simp at he
    · exact loadRows_good h e he
  have h1 := load_lines_save_lines hg
  refine ⟨h1, fun es2 h2 => ?_⟩
  rw [h1] at h2
  rw [← Except.ok.inj h2]

/-- Witness for the amended C7 at a concrete loadable file. -/
theorem claim_c7_amended_witness :
    load_lines (save_lines [⟨⟨2024, 1, 1⟩, "생활리듬", 7, 30⟩])
        = .ok [⟨⟨2024, 1, 1⟩, "생활리듬", 7, 30⟩]
    ∧ ∀ es2, load_lines (save_lines [⟨⟨2024, 1, 1⟩, "생활리듬", 7, 30⟩])
          = .ok es2 →
        save_lines es2 = save_lines [⟨⟨2024, 1, 1⟩, "생활리듬", 7, 30⟩] :=
  claim_c7_amended
    ["week_start,category,days,score", "2024-01-01,생활리듬,7,30"]
    [⟨⟨2024, 1, 1⟩, "생활리듬", 7, 30⟩] (by decide)

/-- C10: loading a path that does not exist returns the empty entry
collection — no exception is raised and nothing is written (`load_entries`
returns before touching the file), so a first load before any save succeeds
with zero entries. -/
theorem claim_c10 : load_entries none = .ok ([] : List RoutineEntry) := rfl

/-!
### The pure-SVG chart renderer `plot_scores_svg` (app.py lines 195-237)

`totals` and `category_data` model the Python `dict[date, float]` maps as
association lists; the renderer sorts every key set before use, so the list
order stands for the dict's (irrelevant) iteration order.  Coordinates are
exact rationals: the `.1f` formatting applied when the numbers are printed
into the SVG `d` attribute is an order-preserving text postprocessing and is
abstracted away, as are colours, labels and the SVG boilerplate — the model
keeps exactly the geometric content of the emitted `path` elements.
-/

/-- `series.get(day)` (app.py line 221): the value stored under `day`. -/
def lookupD (s : List (PyDate × ℚ)) (d : PyDate) : Option ℚ :=
  (s.find? fun p => decide (p.1 = d)).map Prod.snd

/-- Python `date` comparison: lexicographic on `(year, month, day)`. -/
def dateLeb (a b : PyDate) : Bool :=
  decide (a.year < b.year ∨ (a.year = b.year ∧ (a.month < b.month ∨
    (a.month = b.month ∧ a.day ≤ b.day))))

/-- `dateLeb` as a relation, for `List.insertionSort`. -/
def dateLe (a b : PyDate) : Prop := dateLeb a b = true

instance : DecidableRel dateLe := fun a b => instDecidableEqBool (dateLeb a b) true

instance : IsTotal PyDate dateLe := by
  constructor; intro a b; simp only [dateLe, dateLeb, decide_eq_true_eq]; omega

instance : IsTrans PyDate dateLe := by
  constructor; intro a b c; simp only [dateLe, dateLeb, decide_eq_true_eq]; omega

/-- The sorted distinct-date domain
`sorted(set(totals.keys()) | set of all category dates)` (app.py line 202). -/
def allDates (totals : List (PyDate × ℚ))
    (cd : List (String × List (PyDate × ℚ))) : List PyDate :=
  List.insertionSort dateLe
    ((totals.map Prod.fst ++ (cd.map fun p => p.2.map Prod.fst).flatten).dedup)

/-- `x_step` (app.py line 207) for a domain of `n` dates. -/
def xStep (n : Nat) : ℚ := (800 - 2 * 50) / ((max (n - 1) 1 : ℕ) : ℚ)

/-- `x_pos` (app.py lines 209-210). -/
def xPos (n : Nat) (i : Nat) : ℚ := 50 + (i : ℚ) * xStep n

/-- `y_pos` (app.py lines 212-213). -/
def yPos (s : ℚ) : ℚ := 400 - 50 - s / 100 * (400 - 2 * 50)

/-- One SVG path command, `M x y` or `L x y` (app.py lines 227-230). -/
inductive PathCmd where
  | move (x y : ℚ)
  | line (x y : ℚ)
  deriving DecidableEq, Repr

/-- The x-coordinate of a path command. -/
def PathCmd.xc : PathCmd → ℚ
  | .move x _ => x
  | .line x _ => x

/-- The point list built by the `for idx, day in enumerate(all_dates)` loop of
`add_series` (app.py lines 219-224), starting at domain index `i`. -/
def seriesPointsAux (n : Nat) (s : List (PyDate × ℚ)) :
    List PyDate → Nat → List (ℚ × ℚ)
  | [], _ => []
  | d :: rest, i =>
    match lookupD s d with
    | none => seriesPointsAux n s rest (i + 1)
    | some sc => (xPos n i, yPos sc) :: seriesPointsAux n s rest (i + 1)

/-- The command sequence of the `path` string (app.py lines 227-230): a move
to the first point, then a line to each further point. -/
def buildPath : List (ℚ × ℚ) → List PathCmd
  | [] => []
  | p :: rest => .move p.1 p.2 :: rest.map fun q => PathCmd.line q.1 q.2

/-- `add_series` (app.py lines 218-232): `none` when the series shares no date
with the domain (the early `return` on an empty point list), otherwise the
emitted path. -/
def addSeries (n : Nat) (dates : List PyDate) (s : List (PyDate × ℚ)) :
    Option (List PathCmd) :=
  match seriesPointsAux n s dates 0 with
  | [] => none
  | pts => some (buildPath pts)

/-- Python string order: lexicographic on Unicode code points. -/
def charsLeb : List Char → List Char → Bool
  | [], _ => true
  | _ :: _, [] => false
  | a :: as, b :: bs =>
    if a.toNat < b.toNat then true
    else if b.toNat < a.toNat then false
    else charsLeb as bs

/-- `sorted(category_data.items())` (app.py line 236) compares the (unique)
dict keys first, so it orders the pairs by key. -/
def strLe (a b : String × List (PyDate × ℚ)) : Prop :=
  charsLeb a.1.data b.1.data = true

instance : DecidableRel strLe :=
  fun a b => instDecidableEqBool (charsLeb a.1.data b.1.data) true

/-- The five-colour palette (app.py line 235); `zip(palette, ...)` keeps at
most five categories. -/
def palette : List String :=
  ["#ff7f0e", "#2ca02c", "#d62728", "#9467bd", "#8c564b"]

/-- `plot_scores_svg` (app.py lines 195-237), reduced to its geometric
content: the `ValueError` on an empty domain, and the emitted series paths —
the totals series first, then the categories in sorted key order (truncated
to the palette length by `zip`), each contributing a path only when
`add_series` emits one. -/
def plot_scores_svg (totals : List (PyDate × ℚ))
    (cd : List (String × List (PyDate × ℚ))) :
    Except String (List (List PathCmd)) :=
  let dates := allDates totals cd
  if dates = [] then .error "시각화할 데이터가 없습니다."
  else
    let n := dates.length
    let series := totals ::
      ((List.insertionSort strLe cd).take palette.length).map Prod.snd
    .ok ((series.map (addSeries n dates)).filterMap id)

/-- An insertion sort is empty exactly when its input is. -/
theorem insertionSort_eq_nil_iff {α : Type} {r : α → α → Prop} [DecidableRel r]
    {l : List α} : List.insertionSort r l = [] ↔ l = [] := by
  constructor
  · intro h
    have hl := (List.perm_insertionSort r l).length_eq
    rw [h] at hl
    exact List.eq_nil_of_length_eq_zero hl.symm
  · intro h; rw [h]; rfl

/-- The chart domain is empty exactly when every series is empty. -/
theorem allDates_eq_nil_iff (totals : List (PyDate × ℚ))
    (cd : List (String × List (PyDate × ℚ))) :
    allDates totals cd = [] ↔ (totals = [] ∧ ∀ p ∈ cd, p.2 = []) := by
  unfold allDates
  rw [insertionSort_eq_nil_iff, List.dedup_eq_nil, List.append_eq_nil,
    List.map_eq_nil_iff, List.flatten_eq_nil_iff]
  constructor
  · rintro ⟨h1, h2⟩
    refine ⟨h1, fun p hp => ?_⟩
    have := h2 (p.2.map Prod.fst) (List.mem_map_of_mem _ hp)
    exact List.map_eq_nil_iff.mp this
  · rintro ⟨h1, h2⟩
    refine ⟨h1, fun l hl => ?_⟩
    obtain ⟨p, hp, rfl⟩ := List.mem_map.mp hl
    rw [h2 p hp]; rfl

/-- The horizontal step between consecutive domain indices is non-negative. -/
theorem xStep_nonneg (n : Nat) : 0 ≤ xStep n := by
  unfold xStep
  apply div_nonneg (by norm_num)
  positivity

/-- `x_pos` is monotone in the domain index. -/
theorem xPos_mono (n : Nat) {i j : Nat} (h : i ≤ j) : xPos n i ≤ xPos n j := by
  unfold xPos
  have hs := xStep_nonneg n
  have hij : (i : ℚ) ≤ (j : ℚ) := by exact_mod_cast h
  exact add_le_add_left (mul_le_mul_of_nonneg_right hij hs) 50

/-- Every point produced from domain index `i` onward has x-coordinate at
least `xPos n i`. -/
theorem seriesPointsAux_x_ge (n : Nat) (s : List (PyDate × ℚ)) :
    ∀ (dates : List PyDate) (i : Nat),
      ∀ p ∈ seriesPointsAux n s dates i, xPos n i ≤ p.1 := by
  intro dates
  induction dates with
  | nil => intro i p hp; simp [seriesPointsAux] at hp
  | cons d rest ih =>
    intro i p hp
    have hstep : xPos n i ≤ xPos n (i + 1) := xPos_mono n (Nat.le_succ i)
    rw [seriesPointsAux] at hp
    cases hl : lookupD s d with
    | none =>
      rw [hl] at hp
      exact le_trans hstep (ih (i + 1) p hp)
    | some sc =>
      rw [hl] at hp
      rcases List.mem_cons.mp hp with h | h
      · rw [h]
      · exact le_trans hstep (ih (i + 1) p h)

/-- The point list of a series has non-decreasing x-coordinates. -/
theorem seriesPointsAux_chain (n : Nat) (s : List (PyDate × ℚ)) :
    ∀ (dates : List PyDate) (i : Nat),
      List.Chain' (fun p q : ℚ × ℚ => p.1 ≤ q.1) (seriesPointsAux n s dates i) := by
  intro dates
  induction dates with
  | nil => intro i; simp [seriesPointsAux]
  | cons d rest ih =>
    intro i
    rw [seriesPointsAux]
    cases hl : lookupD s d with
    | none => exact ih (i + 1)
    | some sc =>
      refine List.chain'_cons'.mpr ⟨fun q hq => ?_, ih (i + 1)⟩
      have hmem : q ∈ seriesPointsAux n s rest (i + 1) :=
        List.mem_of_mem_head? hq
      exact le_trans (xPos_mono n (Nat.le_succ i))
        (seriesPointsAux_x_ge n s rest (i + 1) q hmem)

/-- The x-coordinates of the emitted commands are those of the points. -/
theorem buildPath_map_xc (pts : List (ℚ × ℚ)) :
    (buildPath pts).map PathCmd.xc = pts.map Prod.fst := by
  cases pts with
  | nil => rfl
  | cons p rest =>
    rw [buildPath, List.map_cons, List.map_cons, List.map_map]
    congr 1

/-- On a one-date domain a series contributes no point or exactly one. -/
theorem seriesPointsAux_single (n : Nat) (s : List (PyDate × ℚ)) (d : PyDate)
    (i : Nat) :
    seriesPointsAux n s [d] i = [] ∨
      ∃ y, seriesPointsAux n s [d] i = [(xPos n i, y)] := by
  rw [seriesPointsAux]
  cases hl : lookupD s d with
  | none => left; rfl
  | some sc => right; exact ⟨yPos sc, rfl⟩

/-- Every path in the rendered output comes from `addSeries` on the domain. -/
theorem plot_scores_svg_paths {totals : List (PyDate × ℚ)}
    {cd : List (String × List (PyDate × ℚ))} {paths : List (List PathCmd)}
    (h : plot_scores_svg totals cd = .ok paths) :
    ∀ path ∈ paths, ∃ s, addSeries (allDates totals cd).length
      (allDates totals cd) s = some path := by
  intro path hp
  rw [plot_scores_svg] at h
  split at h
  · exact absurd h (by simp)
  · rw [Except.ok.injEq] at h
    rw [← h] at hp
    obtain ⟨o, ho, hoeq⟩ := List.mem_filterMap.mp hp
    obtain ⟨s, _, hs⟩ := List.mem_map.mp ho
    exact ⟨s, by rw [hs]; exact hoeq⟩

/-- C8: `plot_scores_svg` fails with the no-data `ValueError` exactly when the
union of all series' week keys is empty; when the domain has exactly one date,
every emitted path is a single move command with no line segment; the x
position of domain index `i` of `n` dates is
`padding + i * ((width - 2 * padding) / max (n - 1) 1)` with width 800 and
padding 50, monotone in `i`; the domain is sorted ascending by date; and the x
coordinates along every emitted path are non-decreasing. -/
theorem claim_c8 :
    (∀ totals cd, plot_scores_svg totals cd = .error "시각화할 데이터가 없습니다." ↔
      (totals = [] ∧ ∀ p ∈ cd, p.2 = [])) ∧
    (∀ totals cd d paths, allDates totals cd = [d] →
      plot_scores_svg totals cd = .ok paths →
      ∀ path ∈ paths, ∃ x y, path = [PathCmd.move x y]) ∧
    (∀ n i, xPos n i = 50 + (i : ℚ) * ((800 - 2 * 50) / ((max (n - 1) 1 : ℕ) : ℚ))) ∧
    (∀ n i j, i ≤ j → xPos n i ≤ xPos n j) ∧
    (∀ totals cd, List.Sorted dateLe (allDates totals cd)) ∧
    (∀ totals cd paths, plot_scores_svg totals cd = .ok paths →
      ∀ path ∈ paths,
        List.Chain' (fun c c' => PathCmd.xc c ≤ PathCmd.xc c') path) := by
  refine ⟨?_, ?_, ?_, ?_, ?_, ?_⟩
  · intro totals cd
    rw [← allDates_eq_nil_iff totals cd]
    simp only [plot_scores_svg]
    split
    · rename_i h
      simp [h]
    · rename_i h
      simp [h]
  · intro totals cd d paths hdom hok path hp
    obtain ⟨s, hs⟩ := plot_scores_svg_paths hok path hp
    rw [hdom] at hs
    simp only [List.length_singleton] at hs
    rw [addSeries] at hs
    rcases seriesPointsAux_single 1 s d 0 with h0 | ⟨y, h0⟩
    · rw [h0] at hs
      simp at hs
    · rw [h0] at hs
      simp only [buildPath, List.map_nil, Option.some.injEq] at hs
      exact ⟨xPos 1 0, y, hs.symm⟩
  · intro n i
    rfl
  · intro n i j h
    exact xPos_mono n h
  · intro totals cd
    exact List.sorted_insertionSort dateLe _
  · intro totals cd paths hok path hp
    obtain ⟨s, hs⟩ := plot_scores_svg_paths hok path hp
    rw [addSeries] at hs
    cases hpts : seriesPointsAux (allDates totals cd).length s
        (allDates totals cd) 0 with
    | nil =>
      rw [hpts] at hs
      simp at hs
    | cons p rest =>
      rw [hpts] at hs
      simp only [Option.some.injEq] at hs
      have hchain := seriesPointsAux_chain (allDates totals cd).length s
        (allDates totals cd) 0
      rw [hpts] at hchain
      have hm : List.Chain' (fun a b : ℚ => a ≤ b)
          ((buildPath (p :: rest)).map PathCmd.xc) := by
        rw [buildPath_map_xc, List.chain'_map]
        exact hchain
      rw [List.chain'_map] at hm
      rw [← hs]
      exact hm

/-- Witness for C8 on a one-date, one-series input: the domain is the single
week, the renderer emits exactly a single move command at x = 50, and the
claim's one-point and chain conclusions follow by applying `claim_c8`. -/
theorem claim_c8_witness :
    allDates [((⟨2024, 1, 1⟩ : PyDate), (10 : ℚ))] [] = [⟨2024, 1, 1⟩] ∧
    plot_scores_svg [((⟨2024, 1, 1⟩ : PyDate), (10 : ℚ))] [] =
      .ok [[PathCmd.move 50 320]] ∧
    (∀ path ∈ [[PathCmd.move 50 320]], ∃ x y, path = [PathCmd.move x y]) ∧
    List.Chain' (fun c c' => PathCmd.xc c ≤ PathCmd.xc c')
      [PathCmd.move 50 320] := by
  have h1 : allDates [((⟨2024, 1, 1⟩ : PyDate), (10 : ℚ))] [] =
      [⟨2024, 1, 1⟩] := by rfl
  have hx : xPos 1 0 = 50 := by
    rw [xPos, xStep]; norm_num
  have hy : yPos 10 = 320 := by
    rw [yPos]; norm_num
  have h3 : plot_scores_svg [((⟨2024, 1, 1⟩ : PyDate), (10 : ℚ))] [] =
      .ok [[PathCmd.move (xPos 1 0) (yPos 10)]] := by rfl
  have h2 : plot_scores_svg [((⟨2024, 1, 1⟩ : PyDate), (10 : ℚ))] [] =
      .ok [[PathCmd.move 50 320]] := by
    rw [h3, hx, hy]
  refine ⟨h1, h2, claim_c8.2.1 _ _ _ _ h1 h2, ?_⟩
  exact claim_c8.2.2.2.2.2 _ _ _ h2 [PathCmd.move 50 320] (by simp)

/-!
### The report assembler `generate_report` (app.py lines 304-376)

The report body is HTML boilerplate around three data items per week — the
`week_label`, the `:.1f`-formatted total with the 점 suffix, and the grade
label — plus the fallback note.  The model produces exactly those: `entries`
stands for the loaded CSV (the `load_entries` call) and `used_matplotlib` for
the outcome of the `import matplotlib` probe inside `generate_plot`.  When the
totals dict is non-empty, `generate_plot` cannot raise (its own guard
re-checks the same data), so the only failure is the no-data `ValueError`.
-/

/-- Ordinal of the day within its year (`1` for January 1st). -/
def dayOfYear (d : PyDate) : Int := monthOffset (isLeap d.year) d.month + d.day

/-- Number of ISO 8601 weeks in year `y` (52, or 53 when the year starts or —
in a leap year — ends on a Thursday). -/
def isoWeeksInYear (y : Int) : Int :=
  if (y + y / 4 - y / 100 + y / 400) % 7 = 4 ∨
      ((y - 1) + (y - 1) / 4 - (y - 1) / 100 + (y - 1) / 400) % 7 = 3 then 53
  else 52

/-- Python `date.isocalendar()` restricted to its `(year, week)` components:
the ISO 8601 week-numbering year and week. -/
def isoYearWeek (d : PyDate) : Int × Int :=
  let w := (10 + dayOfYear d - (weekday d + 1)) / 7
  if w < 1 then (d.year - 1, isoWeeksInYear (d.year - 1))
  else if isoWeeksInYear d.year < w then (d.year + 1, 1)
  else (d.year, w)

/-- The `02d` format: decimal digits zero-padded to overall width 2 (the
sign, when present, counts toward the width). -/
def pad2Int (z : Int) : List Char :=
  if z < 0 then '-' :: padZeros 1 (natDigits z.natAbs)
  else padZeros 2 (natDigits z.natAbs)

/-- `week_label` (app.py lines 299-301): the `%Y-%m-%d` date followed by the
ISO year and zero-padded ISO week. -/
def week_label (d : PyDate) : String :=
  let yw := isoYearWeek d
  String.mk (formatDate d ++ (" (ISO ".data ++ (printInt yw.1 ++
    ('-' :: 'W' :: (pad2Int yw.2 ++ [')'])))))

/-- The `:.1f` format used for the total column: round-half-even to one
decimal digit, then print with exactly one digit after the point.  (CPython
formats the nearest double; on this program's totals — sums of exact
multiples of 1/100 well below 2^53 — the decimal shown is the half-even
rounding of the exact value.  The `-0.0` artefact of negative floats rounding
to zero is not modelled; no score here is negative.) -/
def format1f (q : ℚ) : String :=
  let n := roundHalfEvenScaled 1 q
  String.mk ((if n < 0 then ['-'] else []) ++
    (natDigits (n.natAbs / 10) ++ '.' :: [digitChar (n.natAbs % 10)]))

/-- One step of the `defaultdict(float)` accumulation of `summarize_by_week`
(app.py lines 147-151): Python dicts keep the insertion order of the first
appearance of each key, and `+=` updates the entry in place. -/
def addToAssoc : List (PyDate × ℚ) → PyDate → ℚ → List (PyDate × ℚ)
  | [], k, v => [(k, v)]
  | (k', v') :: rest, k, v =>
    if k' = k then (k', v' + v) :: rest else (k', v') :: addToAssoc rest k v

/-- `summarize_by_week` (app.py lines 147-151, routine_core.py lines
161-165): per-week totals of the entry scores. -/
def summarize_by_week (entries : List RoutineEntry) : List (PyDate × ℚ) :=
  entries.foldl (fun m e => addToAssoc m e.week_start e.score) []

/-- Whether some entry lands in week `w`. -/
def hasWeek (entries : List RoutineEntry) (w : PyDate) : Bool :=
  entries.any fun e => decide (e.week_start = w)

/-- The independent characterisation of a week's total: the sum of the scores
of exactly the entries of that week. -/
def totalW (entries : List RoutineEntry) (w : PyDate) : ℚ :=
  ((entries.filter fun e => decide (e.week_start = w)).map RoutineEntry.score).sum

/-- The data content of one summary-table row (app.py lines 317-320). -/
structure ReportRow where
  label : String
  total : String
  grade : String
  deriving DecidableEq, Repr

/-- The row built for week `w` from the totals dict (app.py lines 314-320):
`totals[week_start]` is a plain index, the key always being present. -/
def rowFor (totals : List (PyDate × ℚ)) (w : PyDate) : ReportRow :=
  let t := (lookupD totals w).getD 0
  ⟨week_label w, format1f t ++ "점", grade_for_score t⟩

/-- `generate_report` (app.py lines 304-323), reduced to its data content:
the error on empty totals, else the summary rows over the sorted weeks and
the fallback note (empty exactly when matplotlib was used). -/
def generate_report (entries : List RoutineEntry) (used_matplotlib : Bool) :
    Except String (List ReportRow × String) :=
  let totals := summarize_by_week entries
  if totals = [] then .error "등록된 루틴 점수가 없습니다."
  else
    let weeks := List.insertionSort dateLe (totals.map Prod.fst)
    let rows := weeks.map (rowFor totals)
    let note := if used_matplotlib then ""
      else "<p>matplotlib 미설치로 SVG 그래프를 사용했습니다.</p>"
    .ok (rows, note)

/-- The accumulation step never empties the totals dict. -/
theorem addToAssoc_ne_nil (m : List (PyDate × ℚ)) (k : PyDate) (v : ℚ) :
    ¬addToAssoc m k v = [] := by
  cases m with
  | nil => simp [addToAssoc]
  | cons p rest =>
    obtain ⟨k', v'⟩ := p
    rw [addToAssoc]
    split <;> simp

/-- Folding entries into a non-empty dict keeps it non-empty. -/
theorem foldl_addToAssoc_ne_nil (es : List RoutineEntry) :
    ∀ m, ¬m = [] →
      ¬es.foldl (fun m e => addToAssoc m e.week_start e.score) m = [] := by
  induction es with
  | nil => intro m h; simpa using h
  | cons e es ih =>
    intro m h
    rw [List.foldl_cons]
    exact ih _ (addToAssoc_ne_nil m _ _)

/-- The totals dict is empty exactly when there are no entries. -/
theorem summarize_eq_nil_iff (es : List RoutineEntry) :
    summarize_by_week es = [] ↔ es = [] := by
  constructor
  · intro h
    cases es with
    | nil => rfl
    | cons e es =>
      exfalso
      rw [summarize_by_week, List.foldl_cons] at h
      exact foldl_addToAssoc_ne_nil es _ (addToAssoc_ne_nil [] _ _) h
  · intro h; rw [h]; rfl

/-- Evaluation of the dict lookup on a cons cell. -/
theorem lookupD_cons (p : PyDate × ℚ) (rest : List (PyDate × ℚ)) (w : PyDate) :
    lookupD (p :: rest) w = if p.1 = w then some p.2 else lookupD rest w := by
  by_cases h : p.1 = w
  · simp [lookupD, List.find?_cons, h]
  · simp [lookupD, List.find?_cons, h]

/-- How one accumulation step changes a lookup. -/
theorem lookupD_addToAssoc (m : List (PyDate × ℚ)) (k : PyDate) (v : ℚ)
    (w : PyDate) :
    lookupD (addToAssoc m k v) w =
      if w = k then some ((lookupD m w).getD 0 + v) else lookupD m w := by
  induction m with
  | nil =>
    rw [addToAssoc, lookupD_cons]
    by_cases h : w = k
    · rw [if_pos (h.symm), if_pos h]
      simp [lookupD, List.find?]
    · rw [if_neg (fun hh => h hh.symm), if_neg h]
  | cons p rest ih =>
    obtain ⟨k', v'⟩ := p
    rw [addToAssoc]
    by_cases hk : k' = k
    · rw [if_pos hk, lookupD_cons, lookupD_cons]
      by_cases hw : w = k
      · have hk'w : k' = w := by rw [hk, hw]
        rw [if_pos hk'w, if_pos hw, if_pos hk'w]
        simp
      · have hk'w : ¬k' = w := fun hh => hw (by rw [← hh, hk])
        rw [if_neg hk'w, if_neg hw, if_neg hk'w]
    · rw [if_neg hk, lookupD_cons, lookupD_cons]
      by_cases hw : k' = w
      · have hwk : ¬w = k := fun hh => hk (by rw [hw, hh])
        rw [if_pos hw, if_neg hwk, if_pos hw]
      · rw [if_neg hw, ih, if_neg hw]

/-- The total of a week no entry hits is zero. -/
theorem totalW_eq_zero {es : List RoutineEntry} {w : PyDate}
    (h : ¬hasWeek es w = true) : totalW es w = 0 := by
  rw [totalW]
  have hf : es.filter (fun e => decide (e.week_start = w)) = [] := by
    rw [List.filter_eq_nil_iff]
    intro a ha hd
    exact h (by rw [hasWeek, List.any_eq_true]; exact ⟨a, ha, hd⟩)
  rw [hf]; rfl

/-- The fold invariant of the weekly accumulation: every lookup in the result
is the incoming value plus the exact total of the folded entries. -/
theorem lookupD_foldl (es : List RoutineEntry) :
    ∀ (m : List (PyDate × ℚ)) (w : PyDate),
      lookupD (es.foldl (fun m e => addToAssoc m e.week_start e.score) m) w =
        if hasWeek es w = true then
          some ((lookupD m w).getD 0 + totalW es w)
        else lookupD m w := by
  induction es with
  | nil => intro m w; simp [hasWeek, totalW]
  | cons e es ih =>
    intro m w
    rw [List.foldl_cons, ih (addToAssoc m e.week_start e.score) w]
    by_cases hw : e.week_start = w
    · have hm' : lookupD (addToAssoc m e.week_start e.score) w =
          some ((lookupD m w).getD 0 + e.score) := by
        rw [lookupD_addToAssoc, if_pos hw.symm]
      have hhc : hasWeek (e :: es) w = true := by simp [hasWeek, hw]
      have ht : totalW (e :: es) w = e.score + totalW es w := by
        simp [totalW, List.filter_cons, hw]
      rw [hm', hhc, ht]
      by_cases hes : hasWeek es w = true
      · rw [if_pos hes, if_pos rfl]
        simp [add_assoc]
      · rw [if_neg hes, if_pos rfl, totalW_eq_zero hes, add_zero]
    · have hm' : lookupD (addToAssoc m e.week_start e.score) w = lookupD m w := by
        rw [lookupD_addToAssoc, if_neg (fun hh => hw hh.symm)]
      have hhc : hasWeek (e :: es) w = hasWeek es w := by
        simp [hasWeek, List.any_cons, hw]
      have ht : totalW (e :: es) w = totalW es w := by
        simp [totalW, List.filter_cons, hw]
      rw [hm', hhc, ht]

/-- Lookups in the totals dict are exactly the per-week totals. -/
theorem lookupD_summarize (es : List RoutineEntry) (w : PyDate) :
    lookupD (summarize_by_week es) w =
      if hasWeek es w = true then some (totalW es w) else none := by
  rw [summarize_by_week, lookupD_foldl]
  have h0 : lookupD [] w = none := rfl
  by_cases h : hasWeek es w = true
  · rw [if_pos h, if_pos h, h0]
    simp
  · rw [if_neg h, if_neg h, h0]

/-- An accumulation step keeps the key list, appending the key when new. -/
theorem keys_addToAssoc (m : List (PyDate × ℚ)) (k : PyDate) (v : ℚ) :
    (addToAssoc m k v).map Prod.fst =
      if k ∈ m.map Prod.fst then m.map Prod.fst
      else m.map Prod.fst ++ [k] := by
  induction m with
  | nil => simp [addToAssoc]
  | cons p rest ih =>
    obtain ⟨k', v'⟩ := p
    rw [addToAssoc]
    by_cases hk : k' = k
    · rw [if_pos hk]
      simp [List.mem_cons, hk]
    · rw [if_neg hk]
      simp only [List.map_cons, ih]
      by_cases hm : k ∈ rest.map Prod.fst
      · rw [if_pos hm, if_pos (by simp [List.mem_cons, hm])]
      · have hnotc : ¬k ∈ (k', v').1 :: rest.map Prod.fst := by
          simp only [List.mem_cons]
          rintro (hh | hh)
          · exact hk hh.symm
          · exact hm hh
        rw [if_neg hm, if_neg hnotc]
        simp

/-- An accumulation step preserves distinctness of the keys. -/
theorem keys_nodup_addToAssoc {m : List (PyDate × ℚ)}
    (h : (m.map Prod.fst).Nodup) (k : PyDate) (v : ℚ) :
    ((addToAssoc m k v).map Prod.fst).Nodup := by
  rw [keys_addToAssoc]
  by_cases hm : k ∈ m.map Prod.fst
  · rw [if_pos hm]; exact h
  · rw [if_neg hm]
    rw [List.nodup_append]
    exact ⟨h, List.nodup_singleton k, by
      intro a ha hset
      rw [List.mem_singleton] at hset
      exact hm (hset ▸ ha)⟩

/-- The keys of the totals dict are distinct (it models a Python dict). -/
theorem keys_nodup_summarize (es : List RoutineEntry) :
    ((summarize_by_week es).map Prod.fst).Nodup := by
  rw [summarize_by_week]
  have haux : ∀ (l : List RoutineEntry) (m : List (PyDate × ℚ)),
      (m.map Prod.fst).Nodup →
      ((l.foldl (fun m e => addToAssoc m e.week_start e.score) m).map
        Prod.fst).Nodup := by
    intro l
    induction l with
    | nil => intro m h; exact h
    | cons e es ih =>
      intro m h
      rw [List.foldl_cons]
      exact ih _ (keys_nodup_addToAssoc h _ _)
  exact haux es [] (by simp)

/-- A lookup succeeds exactly on the keys. -/
theorem mem_keys_iff_lookupD (m : List (PyDate × ℚ)) (w : PyDate) :
    w ∈ m.map Prod.fst ↔ (lookupD m w).isSome = true := by
  induction m with
  | nil => simp [lookupD]
  | cons p rest ih =>
    rw [List.map_cons, List.mem_cons, lookupD_cons]
    by_cases h : p.1 = w
    · simp [h]
    · have hws : ¬w = p.1 := fun hh => h hh.symm
      simp [h, hws, ih]

/-- The keys of the totals dict are exactly the weeks hit by some entry. -/
theorem mem_keys_summarize (es : List RoutineEntry) (w : PyDate) :
    w ∈ (summarize_by_week es).map Prod.fst ↔ hasWeek es w = true := by
  rw [mem_keys_iff_lookupD, lookupD_summarize]
  by_cases h : hasWeek es w = true
  · simp [h]
  · simp [h]

/-- C9: `generate_report` fails with the no-data `ValueError` exactly when
there are no entries (hence zero weekly totals); otherwise the summary table
has exactly one row per distinct week — the weeks being distinct and in
ascending chronological order — each row carrying the week label, the week's
exact total formatted to one decimal place with the 점 suffix, and the grade
label; and the fallback note is present exactly when matplotlib was not
used. -/
theorem claim_c9 :
    (∀ es flag, generate_report es flag = .error "등록된 루틴 점수가 없습니다." ↔
      es = []) ∧
    (∀ es flag rows note, generate_report es flag = .ok (rows, note) →
      ∃ weeks : List PyDate,
        rows = weeks.map (fun w => ReportRow.mk (week_label w)
          (format1f (totalW es w) ++ "점") (grade_for_score (totalW es w))) ∧
        (∀ w, w ∈ weeks ↔ ∃ e ∈ es, e.week_start = w) ∧
        weeks.Nodup ∧ List.Sorted dateLe weeks ∧
        note = (if flag = true then ""
          else "<p>matplotlib 미설치로 SVG 그래프를 사용했습니다.</p>")) := by
  constructor
  · intro es flag
    simp only [generate_report]
    split
    · rename_i h
      simp [(summarize_eq_nil_iff es).mp h]
    · rename_i h
      constructor
      · intro hh; exact Except.noConfusion hh
      · intro hh; exact absurd ((summarize_eq_nil_iff es).mpr hh) h
  · intro es flag rows note hok
    simp only [generate_report] at hok
    by_cases h : summarize_by_week es = []
    · rw [if_pos h] at hok
      exact Except.noConfusion hok
    · rw [if_neg h] at hok
      rw [Except.ok.injEq, Prod.mk.injEq] at hok
      obtain ⟨hrows, hnote⟩ := hok
      refine ⟨List.insertionSort dateLe ((summarize_by_week es).map Prod.fst),
        ?_, ?_, ?_, ?_, ?_⟩
      · rw [← hrows]
        apply List.map_congr_left
        intro w hw
        have hmem : w ∈ (summarize_by_week es).map Prod.fst :=
          (List.perm_insertionSort dateLe _).subset hw
        have hhw : hasWeek es w = true := (mem_keys_summarize es w).mp hmem
        have hl : lookupD (summarize_by_week es) w = some (totalW es w) := by
          rw [lookupD_summarize, if_pos hhw]
        simp only [rowFor, hl, Option.getD_some]
      · intro w
        rw [(List.perm_insertionSort dateLe _).mem_iff, mem_keys_summarize,
          hasWeek, List.any_eq_true]
        simp only [decide_eq_true_eq]
      · exact ((List.perm_insertionSort dateLe _).nodup_iff).mpr
          (keys_nodup_summarize es)
      · exact List.sorted_insertionSort dateLe _
      · exact hnote.symm

/-- Witness for C9 on a one-entry store: the report succeeds with exactly one
row — label `2024-01-01 (ISO 2024-W01)`, total `30.0점`, grade 주의등급 — and
the fallback note, and the claim's structural conclusion follows by applying
`claim_c9`. -/
theorem claim_c9_witness :
    generate_report [⟨⟨2024, 1, 1⟩, "생활리듬", 7, 30⟩] false =
      .ok ([⟨"2024-01-01 (ISO 2024-W01)", "30.0점", "주의등급"⟩],
        "<p>matplotlib 미설치로 SVG 그래프를 사용했습니다.</p>") ∧
    (∃ weeks : List PyDate,
      [(⟨"2024-01-01 (ISO 2024-W01)", "30.0점", "주의등급"⟩ : ReportRow)] =
        weeks.map (fun w => ReportRow.mk (week_label w)
          (format1f (totalW [⟨⟨2024, 1, 1⟩, "생활리듬", 7, 30⟩] w) ++ "점")
          (grade_for_score (totalW [⟨⟨2024, 1, 1⟩, "생활리듬", 7, 30⟩] w))) ∧
      (∀ w, w ∈ weeks ↔
        ∃ e ∈ [(⟨⟨2024, 1, 1⟩, "생활리듬", 7, 30⟩ : RoutineEntry)],
          e.week_start = w) ∧
      weeks.Nodup ∧ List.Sorted dateLe weeks ∧
      "<p>matplotlib 미설치로 SVG 그래프를 사용했습니다.</p>" =
        (if false = true then ""
         else "<p>matplotlib 미설치로 SVG 그래프를 사용했습니다.</p>")) := by
  have hsum : summarize_by_week [⟨⟨2024, 1, 1⟩, "생활리듬", 7, 30⟩] =
      [((⟨2024, 1, 1⟩ : PyDate), (30 : ℚ))] := rfl
  have hl : lookupD [((⟨2024, 1, 1⟩ : PyDate), (30 : ℚ))] ⟨2024, 1, 1⟩ =
      some 30 := rfl
  have hn : roundHalfEvenScaled 1 (30 : ℚ) = 300 :=
    roundHalfEvenScaled_intCast 1 30 300 (by norm_num)
  have hf : format1f (30 : ℚ) = "30.0" := by
    simp only [format1f, hn]
    rfl
  have hwl : week_label ⟨2024, 1, 1⟩ = "2024-01-01 (ISO 2024-W01)" := by decide
  have hg : grade_for_score (30 : ℚ) = "주의등급" := by decide
  have hrow : rowFor [((⟨2024, 1, 1⟩ : PyDate), (30 : ℚ))] ⟨2024, 1, 1⟩ =
      ⟨"2024-01-01 (ISO 2024-W01)", "30.0점", "주의등급"⟩ := by
    simp only [rowFor, hl, Option.getD_some]
    rw [hwl, hg, hf]
    rfl
  have hsort : List.insertionSort dateLe
      ([((⟨2024, 1, 1⟩ : PyDate), (30 : ℚ))].map Prod.fst) =
      [⟨2024, 1, 1⟩] := rfl
  have h1 : generate_report [⟨⟨2024, 1, 1⟩, "생활리듬", 7, 30⟩] false =
      .ok ([⟨"2024-01-01 (ISO 2024-W01)", "30.0점", "주의등급"⟩],
        "<p>matplotlib 미설치로 SVG 그래프를 사용했습니다.</p>") := by
    simp only [generate_report, hsum]
    rw [if_neg (by simp), hsort]
    simp only [List.map_cons, List.map_nil, hrow, Bool.false_eq_true, if_false]
  exact ⟨h1, claim_c9.2 _ _ _ _ h1⟩

end Routine
